import Mathlib

/-!
Verification of the report-consolidator core (consolidator, metrics
calculator, platform summary, insight generator, statistics analyzer)
against its natural-language specification.

Tables are embedded as a list of column names together with rows of cells.
A cell models one pandas value: a finite float (as an exact rational),
a string, NaN (`null`), or a signed infinity.  Pandas float arithmetic on
the operations the code performs (division, scalar multiplication,
rounding, NaN-skipping sums and statistics) is embedded exactly on this
type, with rounding as decimal round-half-to-even on exact rationals.
-/

set_option maxHeartbeats 1000000

/- The Batteries rational-number operations are `@[irreducible]` for the
elaborator; re-mark them so `decide` can evaluate concrete tables.  The
kernel's checking of the resulting proofs is unaffected: it never honours
reducibility attributes. -/
set_option allowUnsafeReducibility true
attribute [local semireducible] Rat.add Rat.mul Rat.inv Rat.sub

namespace ReportConsolidator

/-- One pandas cell: a finite number (exact rational), a string, NaN
(`null`, pandas' missing-value marker), or a signed infinity. -/
inductive Val where
  | num (q : ℚ)
  | str (s : String)
  | null
  | inf
  | ninf
deriving DecidableEq, Repr

/-- Decimal round-half-to-even of a rational to an integer, the rounding
pandas `Series.round` applies (numpy round-half-even), on exact rationals. -/
def roundHalfEven (q : ℚ) : ℤ :=
  let f : ℤ := ⌊q⌋
  let r : ℚ := q - f
  if r < 1/2 then f
  else if 1/2 < r then f + 1
  else if f % 2 = 0 then f else f + 1

/-- `Series.round(2)`: round to 2 decimal places (half-to-even). -/
def round2 (q : ℚ) : ℚ := (roundHalfEven (q * 100) : ℚ) / 100

/-- Pandas float division of two cells.  Finite / finite follows IEEE:
a zero denominator gives +inf, -inf or NaN according to the numerator's
sign.  NaN propagates.  Strings in an arithmetic column are outside the
data model (§3); such cells are mapped to NaN. -/
def vdiv : Val → Val → Val
  | Val.num a, Val.num b =>
      if b = 0 then
        (if 0 < a then Val.inf else if a < 0 then Val.ninf else Val.null)
      else Val.num (a / b)
  | Val.inf, Val.num b => if 0 ≤ b then Val.inf else Val.ninf
  | Val.ninf, Val.num b => if 0 ≤ b then Val.ninf else Val.inf
  | _, _ => Val.null

/-- Pandas multiplication of a cell by a positive scalar constant
(the code only multiplies by 100 and 1000). -/
def vscale (k : ℚ) : Val → Val
  | Val.num a => Val.num (a * k)
  | Val.inf => Val.inf
  | Val.ninf => Val.ninf
  | _ => Val.null

/-- `Series.round(2)` on a cell: infinities and NaN pass through. -/
def vround2 : Val → Val
  | Val.num a => Val.num (round2 a)
  | v => v

/-- `Series.replace([np.inf, -np.inf], np.nan)` on a cell. -/
def replaceInf : Val → Val
  | Val.inf => Val.null
  | Val.ninf => Val.null
  | v => v

/-- The finite number held by a cell, if any. -/
def toNum : Val → Option ℚ
  | Val.num q => some q
  | _ => none

/-- Is the cell a finite number? -/
def isNum : Val → Bool
  | Val.num _ => true
  | _ => false

/-- Pandas NaN-skipping sum of a column (`Series.sum`, skipna, empty or
all-NaN sums to 0), for columns of finite numbers and NaN. -/
def ratSum (xs : List Val) : ℚ := (xs.filterMap toNum).sum

/-- IEEE float addition on numeric cells: NaN absorbs, same-signed
infinities keep their sign, opposite infinities give NaN.  (A string in a
float column is outside the data model; it is absorbed like NaN.) -/
def vadd : Val → Val → Val
  | Val.num a, Val.num b => Val.num (a + b)
  | Val.num _, Val.inf => Val.inf
  | Val.inf, Val.num _ => Val.inf
  | Val.inf, Val.inf => Val.inf
  | Val.num _, Val.ninf => Val.ninf
  | Val.ninf, Val.num _ => Val.ninf
  | Val.ninf, Val.ninf => Val.ninf
  | Val.inf, Val.ninf => Val.null
  | Val.ninf, Val.inf => Val.null
  | _, _ => Val.null

/-- IEEE float subtraction on numeric cells (same conventions). -/
def vsub : Val → Val → Val
  | Val.num a, Val.num b => Val.num (a - b)
  | Val.num _, Val.inf => Val.ninf
  | Val.inf, Val.num _ => Val.inf
  | Val.inf, Val.ninf => Val.inf
  | Val.num _, Val.ninf => Val.inf
  | Val.ninf, Val.num _ => Val.ninf
  | Val.ninf, Val.inf => Val.ninf
  | Val.inf, Val.inf => Val.null
  | Val.ninf, Val.ninf => Val.null
  | _, _ => Val.null

/-- IEEE float squaring on numeric cells: both infinities square to +inf,
NaN stays NaN. -/
def vsq : Val → Val
  | Val.num a => Val.num (a ^ 2)
  | Val.inf => Val.inf
  | Val.ninf => Val.inf
  | _ => Val.null

/- ## String helpers: `str.lower`, `str.strip`, substring containment -/

/-- ASCII lowercasing of one character, as Python `str.lower` acts on the
ASCII range (the only range exercised by the canonical schema). -/
def asciiLower (c : Char) : Char :=
  if 65 ≤ c.toNat ∧ c.toNat ≤ 90 then Char.ofNat (c.toNat + 32) else c

/-- Python `str.lower` on the ASCII range. -/
def lowerStr (s : String) : String := String.mk (s.toList.map asciiLower)

/-- Whitespace characters stripped by Python `str.strip`. -/
def wsChar (c : Char) : Bool := c = ' ' ∨ c = '\t' ∨ c = '\n' ∨ c = '\r'

/-- Drop leading whitespace. -/
def trimLeadWs (l : List Char) : List Char := l.dropWhile wsChar

/-- Drop trailing whitespace. -/
def trimTrailWs (l : List Char) : List Char :=
  (l.reverse.dropWhile wsChar).reverse

/-- Python `str.strip`: drop leading and trailing whitespace. -/
def stripStr (s : String) : String :=
  String.mk (trimTrailWs (trimLeadWs s.toList))

/-- `df.columns.str.lower().str.strip()` applied to one name. -/
def cleanName (s : String) : String := stripStr (lowerStr s)

/-- Python substring containment `needle in hay` (case-sensitive). -/
def strContains (needle hay : String) : Bool :=
  (List.range (hay.toList.length + 1)).any
    (fun i => ((hay.toList.drop i).take needle.toList.length) = needle.toList)

/- ## Column normalization (`calculate_marketing_metrics` lines 18-34) -/

/-- The alias → canonical pairs of `column_mapping`, in the source's
(dict-insertion) iteration order. -/
def aliasPairs : List (String × String) :=
  [("cost", "spend"), ("amount", "spend"),
   ("impress", "impressions"), ("views", "impressions"),
   ("conv", "conversions"), ("sales", "conversions")]

/-- One pass of the inner loop
`for col in df.columns: if old in col and new not in df.columns: rename`.
The loop renames at most once: after the first rename `new` is present and
every later check fails; renaming is by label (all occurrences), as
`DataFrame.rename` renames every column carrying the label. -/
def applyAlias (old new : String) (cols : List String) : List String :=
  if new ∈ cols then cols
  else
    match cols.find? (fun c => strContains old c) with
    | none => cols
    | some c => cols.map (fun x => if x = c then new else x)

/-- The alias-resolution loop over all pairs of `column_mapping`. -/
def applyAliases (cols : List String) : List String :=
  aliasPairs.foldl (fun acc p => applyAlias p.1 p.2 acc) cols

/-- The state the alias loop leaves one alias pair in: either no column
contains the alias substring, or the canonical name is already a column
(so a further pass cannot rename anything for this pair). -/
def AliasSettled (a c : String) (l : List String) : Prop :=
  (∀ x ∈ l, strContains a x = false) ∨ c ∈ l

/-- The full column-normalization step of `calculate_marketing_metrics`:
lowercase and strip every name, then resolve aliases. -/
def normalizeCols (cols : List String) : List String :=
  applyAliases (cols.map cleanName)

/- ## Tables -/

/-- A DataFrame: named columns and rows of cells, each row aligned with
`cols` positionally. -/
structure Table where
  cols : List String
  rows : List (List Val)
deriving DecidableEq, Repr

/-- Every row has exactly one cell per column. -/
def Table.WF (t : Table) : Prop :=
  ∀ r ∈ t.rows, r.length = t.cols.length

/-- Index of a column label (first occurrence), `Index.get_loc`. -/
def colIdx (cols : List String) (c : String) : Option ℕ :=
  match cols with
  | [] => none
  | d :: cs => if d = c then some 0 else (colIdx cs c).map (fun i => i + 1)

/-- The cell of a row under a column label; NaN when the label is absent
(only used where presence was checked or where pandas aligns by name). -/
def rowVal (cols : List String) (r : List Val) (c : String) : Val :=
  match colIdx cols c with
  | some i => r.getD i Val.null
  | none => Val.null

/-- A whole column `df[c]` as a list of cells (empty Table when absent is
never exercised: every access in the embedding is presence-guarded or
wrapped in `getColE`). -/
def getCol (t : Table) (c : String) : List Val :=
  t.rows.map (fun r => rowVal t.cols r c)

/-- Column assignment `df[c] = xs`: overwrite when the label exists,
append a new column otherwise (pandas aligns the assigned series
positionally here since it is derived from the same frame). -/
def setCol (t : Table) (c : String) (xs : List Val) : Table :=
  match colIdx t.cols c with
  | some i => { cols := t.cols, rows := List.zipWith (fun r x => r.set i x) t.rows xs }
  | none => { cols := t.cols ++ [c], rows := List.zipWith (fun r x => r ++ [x]) t.rows xs }

/-- Map a function over one existing column in place
(`df[c] = df[c].replace(...)`). -/
def mapCol (t : Table) (c : String) (f : Val → Val) : Table :=
  setCol t c ((getCol t c).map f)

/-- Row-wise combination of two columns (`df[a] <op> df[b]`). -/
def zipCols (t : Table) (a b : String) (f : Val → Val → Val) : List Val :=
  List.zipWith f (getCol t a) (getCol t b)

/- ## `calculate_marketing_metrics` (src/metrics_calculator.py lines 9-64) -/

/-- Lines 18-34: normalize then alias-rename the column names in place
(the data is untouched, only labels change). -/
def normStep (t : Table) : Table :=
  { cols := normalizeCols t.cols, rows := t.rows }

/-- Lines 36-38: `df['ctr'] = (df['clicks']/df['impressions']*100).round(2)`
— note: no replacement of infinities. -/
def ctrStep (t : Table) : Table :=
  if "clicks" ∈ t.cols ∧ "impressions" ∈ t.cols then
    setCol t "ctr" (zipCols t "clicks" "impressions"
      (fun a b => vround2 (vscale 100 (vdiv a b))))
  else t

/-- Lines 40-43: cpc, with `replace([inf,-inf], nan)`. -/
def cpcStep (t : Table) : Table :=
  if "spend" ∈ t.cols ∧ "clicks" ∈ t.cols then
    mapCol (setCol t "cpc" (zipCols t "spend" "clicks"
      (fun a b => vround2 (vdiv a b)))) "cpc" replaceInf
  else t

/-- Lines 45-47: `df['cpm'] = (df['spend']/df['impressions']*1000).round(2)`
— note: no replacement of infinities. -/
def cpmStep (t : Table) : Table :=
  if "spend" ∈ t.cols ∧ "impressions" ∈ t.cols then
    setCol t "cpm" (zipCols t "spend" "impressions"
      (fun a b => vround2 (vscale 1000 (vdiv a b))))
  else t

/-- Lines 49-52: cpa, with `replace([inf,-inf], nan)`. -/
def cpaStep (t : Table) : Table :=
  if "spend" ∈ t.cols ∧ "conversions" ∈ t.cols then
    mapCol (setCol t "cpa" (zipCols t "spend" "conversions"
      (fun a b => vround2 (vdiv a b)))) "cpa" replaceInf
  else t

/-- Lines 54-57: conversion_rate, with `replace([inf,-inf], nan)`. -/
def convRateStep (t : Table) : Table :=
  if "conversions" ∈ t.cols ∧ "clicks" ∈ t.cols then
    mapCol (setCol t "conversion_rate" (zipCols t "conversions" "clicks"
      (fun a b => vround2 (vscale 100 (vdiv a b))))) "conversion_rate" replaceInf
  else t

/-- Lines 59-62: roas, with `replace([inf,-inf], nan)`. -/
def roasStep (t : Table) : Table :=
  if "revenue" ∈ t.cols ∧ "spend" ∈ t.cols then
    mapCol (setCol t "roas" (zipCols t "revenue" "spend"
      (fun a b => vround2 (vdiv a b)))) "roas" replaceInf
  else t

/-- `calculate_marketing_metrics`: work on a copy, normalize column names,
then add each KPI column when its source columns are present, in source
statement order. -/
def calculate_marketing_metrics (t : Table) : Table :=
  roasStep (convRateStep (cpaStep (cpmStep (cpcStep (ctrStep (normStep t))))))

/- ## `pd.concat` and `consolidate_reports` (src/consolidator.py) -/

/-- Output column order of `pd.concat`: first appearance across inputs. -/
def unionCols (ts : List Table) : List String :=
  ts.foldl (fun acc t => acc ++ t.cols.filter (fun c => c ∉ acc)) []

/-- One input row re-indexed to the output columns: a cell per output
column, the row's own value where the source table has the column and NaN
where it does not. -/
def reindexRow (src : Table) (r : List Val) (outCols : List String) : List Val :=
  outCols.map (fun c => if c ∈ src.cols then rowVal src.cols r c else Val.null)

/-- `pd.concat(dataframes, ignore_index=True)`: union of columns, rows
appended in input order. -/
def concatTables (ts : List Table) : Table :=
  let cs := unionCols ts
  { cols := cs,
    rows := ts.flatMap (fun t => t.rows.map (fun r => reindexRow t r cs)) }

/-- Errors an invocation of consolidation could raise.  The source raises
none on the empty path (it prints a message and returns None). -/
inductive ConsError where
  | emptyInput
deriving DecidableEq, Repr

/-- `consolidate_reports`, given the list of tables parsed from the CSV
files in directory order (file I/O is the out-of-scope boundary): with
zero files it returns None (no exception); otherwise it concatenates and
adds the marketing metrics.  The `Except` layer records any raised
exception. -/
def consolidate_reports (tables : List Table) : Except ConsError (Option Table) :=
  if tables.isEmpty then Except.ok none
  else Except.ok (some (calculate_marketing_metrics (concatTables tables)))

/- ## Platform grouping and `get_platform_summary` -/

/-- Lexicographic order on char codes, as Python string `<` and the
pandas groupby key sort compare strings. -/
def charListLt : List Char → List Char → Bool
  | [], [] => false
  | [], _ :: _ => true
  | _ :: _, [] => false
  | a :: as, b :: bs =>
      if a.toNat < b.toNat then true
      else if b.toNat < a.toNat then false
      else charListLt as bs

/-- Python `a < b` on strings. -/
def strLtB (a b : String) : Bool := charListLt a.toList b.toList

/-- Insert into a sorted duplicate-free list, keeping it so. -/
def insortUniq (l : List String) (x : String) : List String :=
  match l with
  | [] => [x]
  | y :: ys => if x = y then y :: ys
      else if strLtB x y then x :: y :: ys
      else y :: insortUniq ys x

/-- The string held by a cell, if any. -/
def toStr : Val → Option String
  | Val.str s => some s
  | _ => none

/-- The sorted distinct string keys of a column: `groupby` group keys
(sort=True, NaN keys dropped), and `sorted(series.unique())` for a column
of strings. -/
def sortedKeys (vals : List Val) : List String :=
  (vals.filterMap toStr).foldl insortUniq []

/-- The rows of `df[df['platform'] == p]`. -/
def platformRows (t : Table) (p : String) : List (List Val) :=
  t.rows.filter (fun r => rowVal t.cols r "platform" = Val.str p)

/-- The sub-frame of one platform group. -/
def subTable (t : Table) (p : String) : Table :=
  { cols := t.cols, rows := platformRows t p }

/-- The groupby-sum of one column within one platform group
(`Series.sum`: NaN skipped, empty sums to 0). -/
def groupSum (t : Table) (p : String) (c : String) : ℚ :=
  ratSum (getCol (subTable t p) c)

/-- A platform summary frame: a table indexed by platform name. -/
structure Summary where
  index : List String
  cols : List String
  rows : List (List Val)
deriving DecidableEq, Repr

/-- The summary's columns/rows as a plain table. -/
def Summary.toTable (s : Summary) : Table := { cols := s.cols, rows := s.rows }

/-- `summary[c]` as a list of cells, aligned with `index`. -/
def getColS (s : Summary) (c : String) : List Val := getCol s.toTable c

/-- `summary[c] = xs`. -/
def setColS (s : Summary) (c : String) (xs : List Val) : Summary :=
  let t := setCol s.toTable c xs
  { index := s.index, cols := t.cols, rows := t.rows }

/-- `summary.loc[p, c]`: the cell under column `c` of the row labelled
`p` (first occurrence of the label). -/
def locVal (s : Summary) (p : String) (c : String) : Val :=
  match colIdx s.index p with
  | some i => rowVal s.cols (s.rows.getD i []) c
  | none => Val.null

/-- Line 78-79: the volume columns to sum, restricted to those present. -/
def sumColsOf (t : Table) : List String :=
  ["impressions", "clicks", "spend", "conversions"].filter (fun c => c ∈ t.cols)

/-- Line 82: `df.groupby('platform')[sum_cols].sum()` — one row per sorted
platform key, holding the NaN-skipping group sums. -/
def summaryBase (t : Table) : Summary :=
  { index := sortedKeys (getCol t "platform"),
    cols := sumColsOf t,
    rows := (sortedKeys (getCol t "platform")).map
      (fun p => (sumColsOf t).map (fun c => Val.num (groupSum t p c))) }

/-- Lines 85-86: aggregate ctr from the summed columns. -/
def sumStepCtr (s : Summary) : Summary :=
  if "clicks" ∈ s.cols ∧ "impressions" ∈ s.cols then
    setColS s "ctr" (zipCols s.toTable "clicks" "impressions"
      (fun a b => vround2 (vscale 100 (vdiv a b))))
  else s

/-- Lines 88-89: aggregate cpc. -/
def sumStepCpc (s : Summary) : Summary :=
  if "spend" ∈ s.cols ∧ "clicks" ∈ s.cols then
    setColS s "cpc" (zipCols s.toTable "spend" "clicks"
      (fun a b => vround2 (vdiv a b)))
  else s

/-- Lines 91-92: aggregate cpm. -/
def sumStepCpm (s : Summary) : Summary :=
  if "spend" ∈ s.cols ∧ "impressions" ∈ s.cols then
    setColS s "cpm" (zipCols s.toTable "spend" "impressions"
      (fun a b => vround2 (vscale 1000 (vdiv a b))))
  else s

/-- Lines 94-95: aggregate cpa. -/
def sumStepCpa (s : Summary) : Summary :=
  if "spend" ∈ s.cols ∧ "conversions" ∈ s.cols then
    setColS s "cpa" (zipCols s.toTable "spend" "conversions"
      (fun a b => vround2 (vdiv a b)))
  else s

/-- Lines 97-98: aggregate conversion_rate. -/
def sumStepConv (s : Summary) : Summary :=
  if "conversions" ∈ s.cols ∧ "clicks" ∈ s.cols then
    setColS s "conversion_rate" (zipCols s.toTable "conversions" "clicks"
      (fun a b => vround2 (vscale 100 (vdiv a b))))
  else s

/-- `get_platform_summary` (src/metrics_calculator.py lines 67-100):
None without a platform column; otherwise group by platform (sorted
keys), sum the volume columns that are present, then re-derive the KPIs
from the summed columns, rounded to 2 decimals.  No KPI here gets an
infinity replacement. -/
def get_platform_summary (t : Table) : Option Summary :=
  if "platform" ∈ t.cols then
    some (sumStepConv (sumStepCpa (sumStepCpm (sumStepCpc (sumStepCtr (summaryBase t))))))
  else none

/- ## `get_performance_insights` (src/metrics_calculator.py lines 103-142) -/

/-- One structured insight; the source renders each as a string, which is
presentation (the platform name and the raw value are the data). -/
inductive Insight where
  | bestCtr (platform : String) (value : Val)
  | lowestCpc (platform : String) (value : Val)
  | bestConvRate (platform : String) (value : Val)
  | lowestCpa (platform : String) (value : Val)
  | spendShare (platform : String) (pct : Val)
deriving DecidableEq, Repr

/-- Is a cell an orderable numeric (participates in idxmax/idxmin)? -/
def isOrdNum : Val → Bool
  | Val.num _ => true
  | Val.inf => true
  | Val.ninf => true
  | _ => false

/-- `a < b` on orderable numeric cells (ninf < finite < inf). -/
def valLtB : Val → Val → Bool
  | Val.num a, Val.num b => a < b
  | Val.num _, Val.inf => true
  | Val.ninf, Val.num _ => true
  | Val.ninf, Val.inf => true
  | _, _ => false

/-- `Series.idxmax` over labels/cells: label of the first maximal
non-NaN cell, ValueError when every cell is NaN. -/
def idxmaxE (labels : List String) (vals : List Val) : Except String String :=
  match (List.zip labels vals).filter (fun pr => isOrdNum pr.2) with
  | [] => Except.error "ValueError"
  | pr :: prs => Except.ok
      (prs.foldl (fun best q => if valLtB best.2 q.2 then q else best) pr).1

/-- `Series.idxmin`, same skipping and first-occurrence tie rule. -/
def idxminE (labels : List String) (vals : List Val) : Except String String :=
  match (List.zip labels vals).filter (fun pr => isOrdNum pr.2) with
  | [] => Except.error "ValueError"
  | pr :: prs => Except.ok
      (prs.foldl (fun best q => if valLtB q.2 best.2 then q else best) pr).1

/-- The spend-share percentages the last block of
`get_performance_insights` emits, one per platform in index order:
`summary.loc[p,'spend'] / total_spend * 100` (float semantics: a 0/0
share is NaN). -/
def spendSharePcts (s : Summary) : List Val :=
  let total := ratSum (getColS s "spend")
  s.index.map (fun p => vscale 100 (vdiv (locVal s p "spend") (Val.num total)))

/-- `get_performance_insights`: empty list for a missing or empty
summary; otherwise best-CTR, lowest-CPC, best-conversion-rate,
lowest-CPA (each only when its column exists), then one spend-share entry
per platform.  The `Except` layer records the ValueError `idxmax/idxmin`
raise on an all-NaN column. -/
def get_performance_insights (os : Option Summary) : Except String (List Insight) :=
  match os with
  | none => Except.ok []
  | some s =>
    if s.rows.length = 0 then Except.ok [] else
    match (if "ctr" ∈ s.cols then
        (idxmaxE s.index (getColS s "ctr")).map
          (fun p => [Insight.bestCtr p (locVal s p "ctr")])
      else Except.ok []) with
    | Except.error e => Except.error e
    | Except.ok i1 =>
    match (if "cpc" ∈ s.cols then
        (idxminE s.index (getColS s "cpc")).map
          (fun p => [Insight.lowestCpc p (locVal s p "cpc")])
      else Except.ok []) with
    | Except.error e => Except.error e
    | Except.ok i2 =>
    match (if "conversion_rate" ∈ s.cols then
        (idxmaxE s.index (getColS s "conversion_rate")).map
          (fun p => [Insight.bestConvRate p (locVal s p "conversion_rate")])
      else Except.ok []) with
    | Except.error e => Except.error e
    | Except.ok i3 =>
    match (if "cpa" ∈ s.cols then
        (idxminE s.index (getColS s "cpa")).map
          (fun p => [Insight.lowestCpa p (locVal s p "cpa")])
      else Except.ok []) with
    | Except.error e => Except.error e
    | Except.ok i4 =>
    let i5 := if "spend" ∈ s.cols then
        (List.zip s.index (spendSharePcts s)).map
          (fun pr => Insight.spendShare pr.1 pr.2)
      else []
    Except.ok (i1 ++ i2 ++ i3 ++ i4 ++ i5)

/- ## `analyze_platform_statistics` (src/statistics_analyzer.py lines 11-190) -/

/-- `df[c]` with the KeyError a missing column raises; the error value is
the missing column's name. -/
def getColE (t : Table) (c : String) : Except String (List Val) :=
  if c ∈ t.cols then Except.ok (getCol t c) else Except.error c

/-- `Series.unique()`: distinct values in first-seen order; NaN counts as
a value of its own, as in pandas. -/
def distinctVals (xs : List Val) : List Val :=
  xs.foldl (fun acc v => if v ∈ acc then acc else acc ++ [v]) []

/-- Running (IEEE sum, count) over the non-NaN cells of a column — the
single-pass accumulation behind pandas' skipna reductions.  Only NaN is
skipped; infinities take part in the sum (and in the count) exactly as in
pandas.  (Strings in a float column are outside the data model and are
absorbed like NaN.) -/
def sumCount (xs : List Val) : Val × ℕ :=
  xs.foldl (fun acc v => match v with
    | Val.num q => (vadd acc.1 (Val.num q), acc.2 + 1)
    | Val.inf => (vadd acc.1 Val.inf, acc.2 + 1)
    | Val.ninf => (vadd acc.1 Val.ninf, acc.2 + 1)
    | _ => acc) (Val.num 0, 0)

/-- `Series.mean()` (skipna): NaN when no non-NaN cell; an infinite sum
(a signed infinity among the values) gives an infinite mean, and opposite
infinities give NaN, as in pandas. -/
def pdMean (xs : List Val) : Val :=
  let sc := sumCount xs
  if sc.2 = 0 then Val.null
  else match sc.1 with
    | Val.num q => Val.num (q / sc.2)
    | v => v

/-- `Series.std()` squared: pandas stores the sample standard deviation,
`sqrt` of this value; the square root of a rational is irrational, so the
embedding records the variance — the divisor (count of non-NaN values
minus 1, pandas ddof=1) and the NaN exclusion, which the claims are
about, are properties of this value.  NaN when fewer than 2 non-NaN
cells.  Squared deviations from the mean are taken in IEEE float
arithmetic, so any infinite cell drives the result to NaN through the
`inf - inf` deviation, as in pandas. -/
def pdVarN1 (xs : List Val) : Val :=
  let sc := sumCount xs
  if sc.2 ≤ 1 then Val.null
  else
    let m := pdMean xs
    match xs.foldl (fun a v => match v with
      | Val.num q => vadd a (vsq (vsub (Val.num q) m))
      | Val.inf => vadd a (vsq (vsub Val.inf m))
      | Val.ninf => vadd a (vsq (vsub Val.ninf m))
      | _ => a) (Val.num 0) with
    | Val.num q => Val.num (q / (sc.2 - 1 : ℕ))
    | v => v

/-- Insertion into a sorted list of rationals. -/
def insortQ (l : List ℚ) (x : ℚ) : List ℚ :=
  match l with
  | [] => [x]
  | y :: ys => if x ≤ y then x :: y :: ys else y :: insortQ ys x

/-- Sort a list of rationals ascending. -/
def sortQ (l : List ℚ) : List ℚ := l.foldl insortQ []

/-- `a ≤ b` on non-NaN numeric cells (ninf < finite < inf). -/
def valLeB : Val → Val → Bool
  | Val.num a, Val.num b => a ≤ b
  | Val.ninf, _ => true
  | _, Val.inf => true
  | _, _ => false

/-- Insertion into a list of numeric cells sorted by `valLeB`. -/
def insortV (l : List Val) (x : Val) : List Val :=
  match l with
  | [] => [x]
  | y :: ys => if valLeB x y then x :: y :: ys else y :: insortV ys x

/-- `Series.median()` (skipna): middle of the sorted non-NaN values —
infinities are ordinary orderable values here, as in pandas — with the
IEEE average of the two middles for an even count, NaN for none. -/
def pdMedian (xs : List Val) : Val :=
  let ns := (xs.filter isOrdNum).foldl insortV []
  let n := ns.length
  if n = 0 then Val.null
  else if n % 2 = 1 then ns.getD (n / 2) Val.null
  else match vadd (ns.getD (n / 2 - 1) Val.null) (ns.getD (n / 2) Val.null) with
    | Val.num q => Val.num (q / 2)
    | v => v

/-- `Series.min()` (skipna): NaN when no non-NaN cell; -inf wins when
present, and an all-inf column gives inf, as in pandas. -/
def pdMin (xs : List Val) : Val :=
  match xs.filter isOrdNum with
  | [] => Val.null
  | v :: vs => vs.foldl (fun a b => if valLeB a b then a else b) v

/-- `Series.max()` (skipna): NaN when no non-NaN cell; +inf wins when
present, as in pandas. -/
def pdMax (xs : List Val) : Val :=
  match xs.filter isOrdNum with
  | [] => Val.null
  | v :: vs => vs.foldl (fun a b => if valLeB a b then b else a) v

/-- Following the spec's words (§4.5/§8), for the refinement comparison:
the mean of the non-undefined row-level KPI values. -/
def specMean (qs : List ℚ) : ℚ := qs.sum / qs.length

/-- Following the spec's words: the sample variance — squared deviations
from the mean over the non-undefined values, divided by n − 1 (the square
of the spec's sample standard deviation). -/
def specSampleVar (qs : List ℚ) : ℚ :=
  ((qs.map (fun x => (x - specMean qs) ^ 2)).sum) / ((qs.length - 1 : ℕ) : ℚ)

/-- The mean/median/std/min/max block printed for one KPI (lines 77-86
and analogues).  `varN1` records the square of the printed standard
deviation (see `pdVarN1`). -/
structure KpiStats where
  mean : Val
  median : Val
  varN1 : Val
  lo : Val
  hi : Val
deriving DecidableEq, Repr

def computeStats (xs : List Val) : KpiStats :=
  { mean := pdMean xs, median := pdMedian xs, varN1 := pdVarN1 xs,
    lo := pdMin xs, hi := pdMax xs }

/-- The per-platform record `analyze_platform_statistics` computes: the
counts, volume totals and aggregate KPIs always present (lines 49-65 and
157-164), the distributional blocks only when more than one campaign
exists (ctr and cpc unconditionally then, conversion_rate and cpa only
when their column exists — lines 76, 93, 107, 121), and the
best/worst-campaign highlights (lines 134-154). -/
structure PlatStats where
  n_campaigns : ℕ
  total_impressions : ℚ
  total_clicks : ℚ
  total_spend : ℚ
  total_conversions : ℚ
  aggregate_ctr : ℚ
  aggregate_cpc : ℚ
  aggregate_conversion_rate : ℚ
  aggregate_cpa : ℚ
  ctrStats : Option KpiStats
  cpcStats : Option KpiStats
  convRateStats : Option KpiStats
  cpaStats : Option KpiStats
  best_ctr_campaign : Option Val
  lowest_cpc_campaign : Option Val
  best_conv_campaign : Option Val
deriving DecidableEq, Repr

/-- `Series.idxmax` as a positional index (the sub-frame is accessed by
the same positions), skipping NaN; ValueError when all-NaN. -/
def argmaxE (vals : List Val) : Except String ℕ :=
  match (vals.enum.filter (fun pr => isOrdNum pr.2)) with
  | [] => Except.error "ValueError"
  | pr :: prs => Except.ok
      (prs.foldl (fun best q => if valLtB best.2 q.2 then q else best) pr).1

/-- `Series.idxmin`, positional. -/
def argminE (vals : List Val) : Except String ℕ :=
  match (vals.enum.filter (fun pr => isOrdNum pr.2)) with
  | [] => Except.error "ValueError"
  | pr :: prs => Except.ok
      (prs.foldl (fun best q => if valLtB q.2 best.2 then q else best) pr).1

/-- The body of the `for platform in sorted(...)` loop for one platform,
in source statement order, so a raised KeyError names the first missing
column the source would hit (campaign at line 49, the four volume
columns at 57-60, then ctr/cpc at 77/94 when `n_campaigns > 1`). -/
def platStats (t : Table) (p : String) : Except String PlatStats :=
  let sub := subTable t p
  match getColE sub "campaign" with
  | Except.error e => Except.error e
  | Except.ok campaignCol =>
  let n_campaigns := (distinctVals campaignCol).length
  match getColE sub "impressions" with
  | Except.error e => Except.error e
  | Except.ok imprCol =>
  match getColE sub "clicks" with
  | Except.error e => Except.error e
  | Except.ok clicksCol =>
  match getColE sub "spend" with
  | Except.error e => Except.error e
  | Except.ok spendCol =>
  match getColE sub "conversions" with
  | Except.error e => Except.error e
  | Except.ok convCol =>
  let ti := ratSum imprCol
  let tc := ratSum clicksCol
  let tsp := ratSum spendCol
  let tcv := ratSum convCol
  match (if 1 < n_campaigns then
      (getColE sub "ctr").map (fun c => some (computeStats c))
    else Except.ok none) with
  | Except.error e => Except.error e
  | Except.ok ctrSt =>
  match (if 1 < n_campaigns then
      (getColE sub "cpc").map (fun c => some (computeStats c))
    else Except.ok none) with
  | Except.error e => Except.error e
  | Except.ok cpcSt =>
  let convSt := if 1 < n_campaigns ∧ "conversion_rate" ∈ sub.cols then
      some (computeStats (getCol sub "conversion_rate")) else none
  let cpaSt := if 1 < n_campaigns ∧ "cpa" ∈ sub.cols then
      some (computeStats (getCol sub "cpa")) else none
  match (if 1 < n_campaigns then
      match getColE sub "ctr" with
      | Except.error e => Except.error e
      | Except.ok ctrCol =>
      match argmaxE ctrCol with
      | Except.error e => Except.error e
      | Except.ok bi =>
      match getColE sub "cpc" with
      | Except.error e => Except.error e
      | Except.ok cpcCol =>
      match argminE cpcCol with
      | Except.error e => Except.error e
      | Except.ok li =>
      match (if "conversion_rate" ∈ sub.cols then
          (argmaxE (getCol sub "conversion_rate")).map
            (fun ci => some (campaignCol.getD ci Val.null))
        else Except.ok none) with
      | Except.error e => Except.error e
      | Except.ok bc =>
        Except.ok (some (campaignCol.getD bi Val.null, campaignCol.getD li Val.null, bc))
    else Except.ok none) with
  | Except.error e => Except.error e
  | Except.ok highlights =>
  Except.ok {
    n_campaigns := n_campaigns,
    total_impressions := ti, total_clicks := tc,
    total_spend := tsp, total_conversions := tcv,
    aggregate_ctr := if 0 < ti then tc / ti * 100 else 0,
    aggregate_cpc := if 0 < tc then tsp / tc else 0,
    aggregate_conversion_rate := if 0 < tc then tcv / tc * 100 else 0,
    aggregate_cpa := if 0 < tcv then tsp / tcv else 0,
    ctrStats := ctrSt, cpcStats := cpcSt,
    convRateStats := convSt, cpaStats := cpaSt,
    best_ctr_campaign := highlights.map (fun h => h.1),
    lowest_cpc_campaign := highlights.map (fun h => h.2.1),
    best_conv_campaign := (highlights.map (fun h => h.2.2)).join }

/-- A store of DataFrame objects, addressed by position. -/
abbrev Store := List Table

/-- The empty frame, the read of a dangling address (never exercised
under the theorems' bounds). -/
def emptyTable : Table := { cols := [], rows := [] }

/-- Dereference an address. -/
def readT (s : Store) (a : ℕ) : Table := s.getD a emptyTable

/-- Mutate the object at an address. -/
def writeT (s : Store) (a : ℕ) (t : Table) : Store := s.set a t

/-- The call `calculate_marketing_metrics(df)` on a store: line 16
`df = df.copy()` allocates a fresh object (at the end of the store) and
rebinds the local name to it; every following statement of the body
mutates that fresh object, statement by statement.  Returns the store
after the call and the address of the returned frame. -/
def calculate_marketing_metrics_call (s : Store) (a : ℕ) : Store × ℕ :=
  let b := List.length s
  let s1 := s ++ [readT s a]
  let s2 := writeT s1 b (normStep (readT s1 b))
  let s3 := writeT s2 b (ctrStep (readT s2 b))
  let s4 := writeT s3 b (cpcStep (readT s3 b))
  let s5 := writeT s4 b (cpmStep (readT s4 b))
  let s6 := writeT s5 b (cpaStep (readT s5 b))
  let s7 := writeT s6 b (convRateStep (readT s6 b))
  let s8 := writeT s7 b (roasStep (readT s7 b))
  (s8, b)

/- ## Concrete fixtures used by the claim theorems -/

deriving instance DecidableEq for Except

/-- A metrics input with a row whose impressions denominator is zero while
clicks are positive (row 1), an ordinary row (row 2), and a row with zero
clicks but positive spend (row 3). -/
def zeroDenomTable : Table :=
  { cols := ["clicks", "impressions", "spend"],
    rows := [[Val.num 5, Val.num 0, Val.num 50],
             [Val.num 10, Val.num 100, Val.num 20],
             [Val.num 0, Val.num 200, Val.num 30]] }

/-- A one-platform summary whose only spend is 0. -/
def zeroSpendSummary : Summary :=
  { index := ["A"], cols := ["spend"], rows := [[Val.num 0]] }

/-- Two platforms spending 30 and 70. -/
def twoPlatformSummary : Summary :=
  { index := ["A", "B"], cols := ["spend"],
    rows := [[Val.num 30], [Val.num 70]] }

/-- One platform with three campaigns; ctr values 2, 4, 6 and cpc values
1/2, NaN, 3/2 (the §8 sample-stddev check: stddev of {2,4,6} is 2, so the
variance is 4 — the population divisor would give 8/3). -/
def multiCampaignTable : Table :=
  { cols := ["platform", "campaign", "impressions", "clicks", "spend",
             "conversions", "ctr", "cpc"],
    rows := [[Val.str "A", Val.str "c1", Val.num 100, Val.num 10, Val.num 5,
              Val.num 1, Val.num 2, Val.num (1/2)],
             [Val.str "A", Val.str "c2", Val.num 100, Val.num 10, Val.num 5,
              Val.num 1, Val.num 4, Val.null],
             [Val.str "A", Val.str "c3", Val.num 100, Val.num 0, Val.num 5,
              Val.num 1, Val.num 6, Val.num (3/2)]] }

/-- The stats record for `multiCampaignTable`'s platform "A". -/
def multiCampaignStats : PlatStats :=
  { n_campaigns := 3, total_impressions := 300, total_clicks := 20,
    total_spend := 15, total_conversions := 3,
    aggregate_ctr := 20/3, aggregate_cpc := 3/4,
    aggregate_conversion_rate := 15, aggregate_cpa := 5,
    ctrStats := some { mean := Val.num 4, median := Val.num 4,
                       varN1 := Val.num 4, lo := Val.num 2, hi := Val.num 6 },
    cpcStats := some { mean := Val.num 1, median := Val.num 1,
                       varN1 := Val.num (1/2), lo := Val.num (1/2),
                       hi := Val.num (3/2) },
    convRateStats := none, cpaStats := none,
    best_ctr_campaign := some (Val.str "c3"),
    lowest_cpc_campaign := some (Val.str "c1"),
    best_conv_campaign := none }

/-- Two small tables with disjoint columns, for the consolidation claim. -/
def tblA : Table := { cols := ["a"], rows := [[Val.num 1]] }

def tblB : Table := { cols := ["b"], rows := [[Val.num 2], [Val.num 3]] }

/-- The spec's §8 weighted-versus-averaged example: two rows on one
platform with (impressions, clicks) = (1000, 100) and (9000, 90). -/
def weightedExample : Table :=
  { cols := ["platform", "impressions", "clicks", "spend", "conversions"],
    rows := [[Val.str "P", Val.num 1000, Val.num 100, Val.num 50, Val.num 10],
             [Val.str "P", Val.num 9000, Val.num 90, Val.num 40, Val.num 9]] }

/- ## Claim theorems -/

/-- Claim C1, against the code: on a zero-impressions row with positive
clicks the `ctr` and `cpm` columns hold `inf` — `calculate_marketing_metrics`
applies `replace([np.inf,-np.inf], np.nan)` to cpc/cpa/conversion_rate/roas
but not to ctr (line 38) or cpm (line 47) — while `cpc` on a zero-clicks
row is correctly replaced by the missing marker, and rows with non-zero
denominators still compute. -/
theorem c1_ctr_cpm_hold_infinity_on_zero_denominator :
    getCol (calculate_marketing_metrics zeroDenomTable) "ctr"
      = [Val.inf, Val.num 10, Val.num 0] ∧
    getCol (calculate_marketing_metrics zeroDenomTable) "cpm"
      = [Val.inf, Val.num 200, Val.num 150] ∧
    getCol (calculate_marketing_metrics zeroDenomTable) "cpc"
      = [Val.num 10, Val.num 2, Val.null] := by decide

/-- Claim C4, counterexample: with zero input tables `consolidate_reports`
returns normally with no table (`None` in the source, after printing a
message); it does not raise `EmptyInputError` — no such exception exists
in the repository. -/
theorem c4_counterexample_empty_input_returns_none :
    consolidate_reports [] = Except.ok none ∧
    consolidate_reports [] ≠ Except.error ConsError.emptyInput := by
  simp [consolidate_reports]

/-- Claim C4 as amended: `consolidate_reports` never raises; it signals
the zero-table case by returning no table, and returns a consolidated
table exactly when at least one input table is given. -/
theorem c4_empty_input_yields_none_not_error (ts : List Table) :
    (∀ e, consolidate_reports ts ≠ Except.error e) ∧
    (consolidate_reports ts = Except.ok none ↔ ts = []) := by
  unfold consolidate_reports
  cases ts <;> simp

/-- Witness for `c4_empty_input_yields_none_not_error` at the empty list. -/
theorem c4_empty_input_yields_none_not_error_witness :
    (∀ e, consolidate_reports [] ≠ Except.error e) ∧
    (consolidate_reports [] = Except.ok none ↔ ([] : List Table) = []) :=
  c4_empty_input_yields_none_not_error []

/-- Claim C9, counterexample: on a non-empty summary with a spend column
whose total spend is 0, the emitted spend share is NaN (0/0), so the
shares do not sum to 100% — they are not numbers at all (their numeric
sum is 0). -/
theorem c9_counterexample_zero_total_spend :
    get_performance_insights (some zeroSpendSummary)
      = Except.ok [Insight.spendShare "A" Val.null] ∧
    spendSharePcts zeroSpendSummary = [Val.null] ∧
    ratSum (spendSharePcts zeroSpendSummary) ≠ 100 := by decide

/- ## Store lemmas for the frame claim -/

lemma length_writeT (s : Store) (b : ℕ) (t : Table) :
    (writeT s b t).length = s.length := List.length_set s b t

lemma readT_append_self (s : Store) (t : Table) :
    readT (s ++ [t]) s.length = t := by
  simp [readT, List.getD_eq_getElem?_getD, List.getElem?_append_right]

lemma readT_append_lt (s : Store) (t : Table) (a : ℕ) (h : a < s.length) :
    readT (s ++ [t]) a = readT s a := by
  simp [readT, List.getD_eq_getElem?_getD, List.getElem?_append_left h]

lemma readT_writeT_self (s : Store) (b : ℕ) (t : Table) (h : b < s.length) :
    readT (writeT s b t) b = t := by
  simp [readT, writeT, List.getD_eq_getElem?_getD, List.getElem?_set_self, h]

lemma readT_writeT_ne (s : Store) (b : ℕ) (t : Table) (a : ℕ) (h : a ≠ b) :
    readT (writeT s b t) a = readT s a := by
  simp [readT, writeT, List.getD_eq_getElem?_getD, List.getElem?_set_ne (Ne.symm h)]

/-- Claim C10: the call leaves the caller's frame untouched — after
`calculate_marketing_metrics(df)` the object at the caller's address holds
exactly the table it held before — and the returned object (a fresh
address) holds the pure function of the original table, carrying all the
renames and added KPI columns. -/
theorem c10_calculate_marketing_metrics_leaves_argument_unchanged
    (s : Store) (a : ℕ) (ha : a < s.length) :
    readT (calculate_marketing_metrics_call s a).1 a = readT s a ∧
    readT (calculate_marketing_metrics_call s a).1
        (calculate_marketing_metrics_call s a).2
      = calculate_marketing_metrics (readT s a) := by
  have hne : a ≠ s.length := Nat.ne_of_lt ha
  unfold calculate_marketing_metrics_call calculate_marketing_metrics
  constructor
  · simp [readT_writeT_ne _ _ _ _ hne, readT_append_lt _ _ _ ha]
  · simp [readT_writeT_self, readT_writeT_ne, readT_append_self,
      length_writeT, Nat.lt_succ_self]

/-- Witness for the frame theorem at a one-object store. -/
theorem c10_calculate_marketing_metrics_leaves_argument_unchanged_witness :
    readT (calculate_marketing_metrics_call [zeroDenomTable] 0).1 0
      = readT [zeroDenomTable] 0 ∧
    readT (calculate_marketing_metrics_call [zeroDenomTable] 0).1
        (calculate_marketing_metrics_call [zeroDenomTable] 0).2
      = calculate_marketing_metrics (readT [zeroDenomTable] 0) :=
  c10_calculate_marketing_metrics_leaves_argument_unchanged [zeroDenomTable] 0
    (by decide)

/- ## Column-indexing lemmas -/

lemma colIdx_eq_none_iff (cols : List String) (c : String) :
    colIdx cols c = none ↔ c ∉ cols := by
  induction cols with
  | nil => simp [colIdx]
  | cons d cs ih =>
      by_cases hd : d = c
      · simp [colIdx, hd]
      · have hdc : ¬c = d := fun h => hd h.symm
        simp [colIdx, hd, Option.map_eq_none', ih, hdc]

lemma colIdx_lt_length (cols : List String) (c : String) (i : ℕ)
    (h : colIdx cols c = some i) : i < cols.length := by
  induction cols generalizing i with
  | nil => simp [colIdx] at h
  | cons d cs ih =>
      by_cases hd : d = c
      · simp [colIdx, hd] at h
        simp [List.length_cons]
        omega
      · simp [colIdx, hd] at h
        obtain ⟨j, hj, rfl⟩ := h
        have := ih j hj
        simp [List.length_cons]
        omega

lemma rowVal_map_self (cols : List String) (f : String → Val) (c : String)
    (hc : c ∈ cols) : rowVal cols (cols.map f) c = f c := by
  induction cols with
  | nil => simp at hc
  | cons d cs ih =>
      by_cases hd : d = c
      · subst hd; simp [rowVal, colIdx]
      · have hc' : c ∈ cs := by
          cases hc with
          | head => exact absurd rfl hd
          | tail _ h => exact h
        have := ih hc'
        simp only [rowVal, colIdx, hd, if_false] at this ⊢
        cases hix : colIdx cs c with
        | none => exact absurd hc' ((colIdx_eq_none_iff cs c).mp hix)
        | some i =>
            simp [hix] at this ⊢
            simpa using this

lemma colIdx_append_left (cols l2 : List String) (c : String) (hc : c ∈ cols) :
    colIdx (cols ++ l2) c = colIdx cols c := by
  induction cols with
  | nil => simp at hc
  | cons d cs ih =>
      by_cases hd : d = c
      · simp [colIdx, hd]
      · have hc' : c ∈ cs := by
          cases hc with
          | head => exact absurd rfl hd
          | tail _ h => exact h
        simp [colIdx, hd, ih hc']

lemma colIdx_append_new (cols : List String) (c : String) (hc : c ∉ cols) :
    colIdx (cols ++ [c]) c = some cols.length := by
  induction cols with
  | nil => simp [colIdx]
  | cons d cs ih =>
      have hd : d ≠ c := fun h => hc (h ▸ List.mem_cons_self d cs)
      have hc' : c ∉ cs := fun h => hc (List.mem_cons_of_mem d h)
      simp [colIdx, hd, ih hc']

lemma rowVal_append_frozen (cols l2 : List String) (r xs : List Val) (c : String)
    (hc : c ∈ cols) (hr : cols.length ≤ r.length) :
    rowVal (cols ++ l2) (r ++ xs) c = rowVal cols r c := by
  simp only [rowVal, colIdx_append_left cols l2 c hc]
  cases hix : colIdx cols c with
  | none => rfl
  | some i =>
      have hi : i < r.length :=
        Nat.lt_of_lt_of_le (colIdx_lt_length cols c i hix) hr
      simp [List.getD_eq_getElem?_getD, List.getElem?_append_left hi]

lemma rowVal_append_new (cols : List String) (r : List Val) (c : String) (x : Val)
    (hc : c ∉ cols) (hr : r.length = cols.length) :
    rowVal (cols ++ [c]) (r ++ [x]) c = x := by
  simp only [rowVal, colIdx_append_new cols c hc, ← hr]
  rw [List.getD_append_right _ _ _ _ (Nat.le_refl _)]
  simp

/- ## setCol lemmas (fresh-column case) -/

lemma setCol_fresh_cols (t : Table) (c : String) (xs : List Val) (hc : c ∉ t.cols) :
    (setCol t c xs).cols = t.cols ++ [c] := by
  simp [setCol, (colIdx_eq_none_iff t.cols c).mpr hc]

lemma setCol_fresh_rows (t : Table) (c : String) (xs : List Val) (hc : c ∉ t.cols) :
    (setCol t c xs).rows = List.zipWith (fun r x => r ++ [x]) t.rows xs := by
  simp [setCol, (colIdx_eq_none_iff t.cols c).mpr hc]

lemma map_rowVal_zip_append (cols : List String) (cNew c : String) (hc : c ∈ cols)
    (rows : List (List Val)) (xs : List Val)
    (hwf : ∀ r ∈ rows, r.length = cols.length) (hlen : xs.length = rows.length) :
    (List.zipWith (fun r x => r ++ [x]) rows xs).map
        (fun r => rowVal (cols ++ [cNew]) r c)
      = rows.map (fun r => rowVal cols r c) := by
  induction rows generalizing xs with
  | nil => simp
  | cons r rows ih =>
      cases xs with
      | nil => simp at hlen
      | cons x xs =>
          simp only [List.zipWith_cons_cons, List.map_cons]
          rw [rowVal_append_frozen cols [cNew] r [x] c hc
              (le_of_eq (hwf r (List.mem_cons_self r rows)).symm),
            ih xs (fun r' hr' => hwf r' (List.mem_cons_of_mem _ hr'))
              (by simpa using hlen)]

lemma map_rowVal_zip_append_self (cols : List String) (cNew : String)
    (hfresh : cNew ∉ cols) (rows : List (List Val)) (xs : List Val)
    (hwf : ∀ r ∈ rows, r.length = cols.length) (hlen : xs.length = rows.length) :
    (List.zipWith (fun r x => r ++ [x]) rows xs).map
        (fun r => rowVal (cols ++ [cNew]) r cNew)
      = xs := by
  induction rows generalizing xs with
  | nil => cases xs with
      | nil => simp
      | cons x xs => simp at hlen
  | cons r rows ih =>
      cases xs with
      | nil => simp at hlen
      | cons x xs =>
          simp only [List.zipWith_cons_cons, List.map_cons]
          rw [rowVal_append_new cols r cNew x hfresh (hwf r (List.mem_cons_self r rows)),
            ih xs (fun r' hr' => hwf r' (List.mem_cons_of_mem _ hr'))
              (by simpa using hlen)]

lemma zip_append_wf (rows : List (List Val)) (xs : List Val) (n : ℕ)
    (hwf : ∀ r ∈ rows, r.length = n) :
    ∀ r' ∈ List.zipWith (fun r x => r ++ [x]) rows xs, r'.length = n + 1 := by
  induction rows generalizing xs with
  | nil => simp
  | cons r rows ih =>
      cases xs with
      | nil => simp
      | cons x xs =>
          intro r' hr'
          simp only [List.zipWith_cons_cons, List.mem_cons] at hr'
          cases hr' with
          | inl h =>
              subst h
              simp [hwf r (List.mem_cons_self r rows)]
          | inr h =>
              exact ih xs (fun r'' hr'' => hwf r'' (List.mem_cons_of_mem _ hr'')) r' h

lemma length_getCol (t : Table) (c : String) :
    (getCol t c).length = t.rows.length := by
  simp [getCol]

lemma length_zipCols (t : Table) (a b : String) (f : Val → Val → Val) :
    (zipCols t a b f).length = t.rows.length := by
  simp [zipCols, length_getCol]

/- ## The generic KPI-adding step of `get_platform_summary` -/

lemma summaryStep_spec (s s' : Summary) (name a b : String) (f : Val → Val → Val)
    (allowed : List String)
    (hstep : s' = if a ∈ s.cols ∧ b ∈ s.cols then
        setColS s name (zipCols s.toTable a b f) else s)
    (hsub : ∀ x ∈ s.cols, x ∈ allowed)
    (hname : name ∉ allowed)
    (hwf : ∀ r ∈ s.rows, r.length = s.cols.length)
    (hidx : s.index.length = s.rows.length) :
    (∀ x ∈ s'.cols, x ∈ allowed ++ [name]) ∧
    (∀ r ∈ s'.rows, r.length = s'.cols.length) ∧
    s'.index = s.index ∧
    s'.rows.length = s.rows.length ∧
    (∀ c ∈ s.cols, getColS s' c = getColS s c) ∧
    ((a ∈ s.cols ∧ b ∈ s.cols) → getColS s' name = zipCols s.toTable a b f) ∧
    (∀ c ∈ s.cols, c ∈ s'.cols) := by
  have hfresh : name ∉ s.cols := fun h => hname (hsub _ h)
  by_cases hab : a ∈ s.cols ∧ b ∈ s.cols
  · rw [if_pos hab] at hstep
    subst hstep
    have hxs : (zipCols s.toTable a b f).length = s.rows.length :=
      length_zipCols s.toTable a b f
    have hcols : (setColS s name (zipCols s.toTable a b f)).cols
        = s.cols ++ [name] := setCol_fresh_cols s.toTable name _ hfresh
    have hrows : (setColS s name (zipCols s.toTable a b f)).rows
        = List.zipWith (fun r x => r ++ [x]) s.rows (zipCols s.toTable a b f) :=
      setCol_fresh_rows s.toTable name _ hfresh
    refine ⟨?_, ?_, rfl, ?_, ?_, ?_, ?_⟩
    · intro x hx
      rw [hcols] at hx
      rcases List.mem_append.mp hx with h | h
      · exact List.mem_append.mpr (Or.inl (hsub x h))
      · exact List.mem_append.mpr (Or.inr h)
    · intro r' hr'
      rw [hrows] at hr'
      rw [hcols]
      simpa using zip_append_wf s.rows _ s.cols.length hwf r' hr'
    · rw [hrows]
      simp [hxs]
    · intro c hc
      show getCol (setCol s.toTable name (zipCols s.toTable a b f)) c
          = getCol s.toTable c
      simp only [getCol, setCol_fresh_cols s.toTable name _ hfresh,
        setCol_fresh_rows s.toTable name _ hfresh]
      exact map_rowVal_zip_append s.cols name c hc s.rows _ hwf hxs
    · intro _
      show getCol (setCol s.toTable name (zipCols s.toTable a b f)) name
          = zipCols s.toTable a b f
      simp only [getCol, setCol_fresh_cols s.toTable name _ hfresh,
        setCol_fresh_rows s.toTable name _ hfresh]
      exact map_rowVal_zip_append_self s.cols name hfresh s.rows _ hwf hxs
    · intro c hc
      rw [hcols]
      exact List.mem_append.mpr (Or.inl hc)
  · rw [if_neg hab] at hstep
    subst hstep
    exact ⟨fun x hx => List.mem_append.mpr (Or.inl (hsub x hx)), hwf, rfl, rfl,
      fun c _ => rfl, fun h => absurd h hab, fun c hc => hc⟩

/- ## `get_platform_summary` characterization -/

lemma summaryBase_cols_sub (t : Table) :
    ∀ x ∈ (summaryBase t).cols,
      x ∈ ["impressions", "clicks", "spend", "conversions"] := by
  intro x hx
  exact (List.mem_filter.mp hx).1

lemma summaryBase_wf (t : Table) :
    ∀ r ∈ (summaryBase t).rows, r.length = (summaryBase t).cols.length := by
  intro r hr
  simp only [summaryBase] at hr ⊢
  obtain ⟨p, _, rfl⟩ := List.mem_map.mp hr
  simp

lemma summaryBase_idx_len (t : Table) :
    (summaryBase t).index.length = (summaryBase t).rows.length := by
  simp [summaryBase]

lemma summaryBase_getCol (t : Table) (c : String) (hc : c ∈ sumColsOf t) :
    getColS (summaryBase t) c
      = (sortedKeys (getCol t "platform")).map (fun p => Val.num (groupSum t p c)) := by
  show (summaryBase t).rows.map (fun r => rowVal (summaryBase t).cols r c) = _
  simp only [summaryBase, List.map_map]
  refine List.map_congr_left (fun p _ => ?_)
  exact rowVal_map_self (sumColsOf t) (fun c' => Val.num (groupSum t p c')) c hc

/-- Membership in the volume-column list transfers. -/
lemma mem_sumColsOf (t : Table) (c : String)
    (h4 : c ∈ ["impressions", "clicks", "spend", "conversions"])
    (hc : c ∈ t.cols) : c ∈ sumColsOf t := by
  simp only [sumColsOf, List.mem_filter]
  exact ⟨h4, by simpa using hc⟩

lemma zipWith_map_same {α : Type} (f : Val → Val → Val) (g h : α → Val)
    (l : List α) :
    List.zipWith f (l.map g) (l.map h) = l.map (fun x => f (g x) (h x)) := by
  induction l with
  | nil => simp
  | cons x xs ih => simp [ih]

/-- What `get_platform_summary` computes: the index is the sorted
platform keys, and each of the five aggregate KPI columns is the KPI
formula applied to the per-group sums of the volume columns, rounded to
2 decimals. -/
lemma get_platform_summary_spec (t : Table) (hp : "platform" ∈ t.cols) :
    ∃ s, get_platform_summary t = some s ∧
      s.index = sortedKeys (getCol t "platform") ∧
      ("clicks" ∈ t.cols → "impressions" ∈ t.cols →
        getColS s "ctr" = (sortedKeys (getCol t "platform")).map (fun p =>
          vround2 (vscale 100 (vdiv (Val.num (groupSum t p "clicks"))
            (Val.num (groupSum t p "impressions")))))) ∧
      ("spend" ∈ t.cols → "clicks" ∈ t.cols →
        getColS s "cpc" = (sortedKeys (getCol t "platform")).map (fun p =>
          vround2 (vdiv (Val.num (groupSum t p "spend"))
            (Val.num (groupSum t p "clicks"))))) ∧
      ("spend" ∈ t.cols → "impressions" ∈ t.cols →
        getColS s "cpm" = (sortedKeys (getCol t "platform")).map (fun p =>
          vround2 (vscale 1000 (vdiv (Val.num (groupSum t p "spend"))
            (Val.num (groupSum t p "impressions")))))) ∧
      ("spend" ∈ t.cols → "conversions" ∈ t.cols →
        getColS s "cpa" = (sortedKeys (getCol t "platform")).map (fun p =>
          vround2 (vdiv (Val.num (groupSum t p "spend"))
            (Val.num (groupSum t p "conversions"))))) ∧
      ("conversions" ∈ t.cols → "clicks" ∈ t.cols →
        getColS s "conversion_rate"
          = (sortedKeys (getCol t "platform")).map (fun p =>
          vround2 (vscale 100 (vdiv (Val.num (groupSum t p "conversions"))
            (Val.num (groupSum t p "clicks")))))) := by
  have hb_sub := summaryBase_cols_sub t
  have hb_wf := summaryBase_wf t
  have hb_idx := summaryBase_idx_len t
  -- step 1: ctr
  obtain ⟨h1_sub, h1_wf, h1_idx, h1_len, h1_keep, h1_new, h1_mono⟩ :=
    summaryStep_spec (summaryBase t) (sumStepCtr (summaryBase t)) "ctr"
      "clicks" "impressions" (fun a b => vround2 (vscale 100 (vdiv a b)))
      ["impressions", "clicks", "spend", "conversions"] rfl hb_sub (by decide)
      hb_wf hb_idx
  -- step 2: cpc
  obtain ⟨h2_sub, h2_wf, h2_idx, h2_len, h2_keep, h2_new, h2_mono⟩ :=
    summaryStep_spec _ (sumStepCpc (sumStepCtr (summaryBase t))) "cpc"
      "spend" "clicks" (fun a b => vround2 (vdiv a b))
      ["impressions", "clicks", "spend", "conversions", "ctr"] rfl h1_sub
      (by decide) h1_wf (by rw [h1_idx, h1_len]; exact hb_idx)
  -- step 3: cpm
  obtain ⟨h3_sub, h3_wf, h3_idx, h3_len, h3_keep, h3_new, h3_mono⟩ :=
    summaryStep_spec _ (sumStepCpm (sumStepCpc (sumStepCtr (summaryBase t)))) "cpm"
      "spend" "impressions" (fun a b => vround2 (vscale 1000 (vdiv a b)))
      ["impressions", "clicks", "spend", "conversions", "ctr", "cpc"] rfl h2_sub
      (by decide) h2_wf (by rw [h2_idx, h2_len, h1_idx, h1_len]; exact hb_idx)
  -- step 4: cpa
  obtain ⟨h4_sub, h4_wf, h4_idx, h4_len, h4_keep, h4_new, h4_mono⟩ :=
    summaryStep_spec _
      (sumStepCpa (sumStepCpm (sumStepCpc (sumStepCtr (summaryBase t))))) "cpa"
      "spend" "conversions" (fun a b => vround2 (vdiv a b))
      ["impressions", "clicks", "spend", "conversions", "ctr", "cpc", "cpm"] rfl
      h3_sub (by decide) h3_wf
      (by rw [h3_idx, h3_len, h2_idx, h2_len, h1_idx, h1_len]; exact hb_idx)
  -- step 5: conversion_rate
  obtain ⟨h5_sub, h5_wf, h5_idx, h5_len, h5_keep, h5_new, h5_mono⟩ :=
    summaryStep_spec _
      (sumStepConv (sumStepCpa (sumStepCpm (sumStepCpc (sumStepCtr (summaryBase t))))))
      "conversion_rate" "conversions" "clicks"
      (fun a b => vround2 (vscale 100 (vdiv a b)))
      ["impressions", "clicks", "spend", "conversions", "ctr", "cpc", "cpm", "cpa"]
      rfl h4_sub (by decide) h4_wf
      (by rw [h4_idx, h4_len, h3_idx, h3_len, h2_idx, h2_len, h1_idx, h1_len]
          exact hb_idx)
  refine ⟨sumStepConv (sumStepCpa (sumStepCpm (sumStepCpc (sumStepCtr (summaryBase t))))),
    by simp [get_platform_summary, hp], ?_, ?_, ?_, ?_, ?_, ?_⟩
  · rw [h5_idx, h4_idx, h3_idx, h2_idx, h1_idx]
    rfl
  · intro hck him
    have hckS : "clicks" ∈ (summaryBase t).cols :=
      mem_sumColsOf t "clicks" (by decide) hck
    have himS : "impressions" ∈ (summaryBase t).cols :=
      mem_sumColsOf t "impressions" (by decide) him
    have hctr1 : getColS (sumStepCtr (summaryBase t)) "ctr"
        = zipCols (summaryBase t).toTable "clicks" "impressions"
            (fun a b => vround2 (vscale 100 (vdiv a b))) := h1_new ⟨hckS, himS⟩
    have hm1 : "ctr" ∈ (sumStepCtr (summaryBase t)).cols := by
      have hfresh : "ctr" ∉ (summaryBase t).cols := fun h => by
        have := hb_sub _ h
        simp at this
      simp only [sumStepCtr, if_pos (And.intro hckS himS)]
      rw [show (setColS (summaryBase t) "ctr"
          (zipCols (summaryBase t).toTable "clicks" "impressions"
            (fun a b => vround2 (vscale 100 (vdiv a b))))).cols
          = (summaryBase t).cols ++ ["ctr"] from
        setCol_fresh_cols _ _ _ hfresh]
      simp
    rw [h5_keep _ (h4_mono _ (h3_mono _ (h2_mono _ hm1))),
      h4_keep _ (h3_mono _ (h2_mono _ hm1)), h3_keep _ (h2_mono _ hm1),
      h2_keep _ hm1, hctr1]
    show List.zipWith _ (getColS (summaryBase t) "clicks")
        (getColS (summaryBase t) "impressions") = _
    rw [summaryBase_getCol t "clicks" (mem_sumColsOf t "clicks" (by decide) hck),
      summaryBase_getCol t "impressions"
        (mem_sumColsOf t "impressions" (by decide) him),
      zipWith_map_same]
  · intro hsp hck
    have hspS : "spend" ∈ (summaryBase t).cols :=
      mem_sumColsOf t "spend" (by decide) hsp
    have hckS : "clicks" ∈ (summaryBase t).cols :=
      mem_sumColsOf t "clicks" (by decide) hck
    have hspS1 : "spend" ∈ (sumStepCtr (summaryBase t)).cols := h1_mono _ hspS
    have hckS1 : "clicks" ∈ (sumStepCtr (summaryBase t)).cols := h1_mono _ hckS
    have hcpc2 : getColS (sumStepCpc (sumStepCtr (summaryBase t))) "cpc"
        = zipCols (sumStepCtr (summaryBase t)).toTable "spend" "clicks"
            (fun a b => vround2 (vdiv a b)) := h2_new ⟨hspS1, hckS1⟩
    have hm2 : "cpc" ∈ (sumStepCpc (sumStepCtr (summaryBase t))).cols := by
      have hfresh : "cpc" ∉ (sumStepCtr (summaryBase t)).cols := fun h => by
        have := h1_sub _ h
        simp at this
      simp only [sumStepCpc, if_pos (And.intro hspS1 hckS1)]
      rw [show (setColS (sumStepCtr (summaryBase t)) "cpc"
          (zipCols (sumStepCtr (summaryBase t)).toTable "spend" "clicks"
            (fun a b => vround2 (vdiv a b)))).cols
          = (sumStepCtr (summaryBase t)).cols ++ ["cpc"] from
        setCol_fresh_cols _ _ _ hfresh]
      simp
    rw [h5_keep _ (h4_mono _ (h3_mono _ hm2)), h4_keep _ (h3_mono _ hm2),
      h3_keep _ hm2, hcpc2]
    show List.zipWith _ (getColS (sumStepCtr (summaryBase t)) "spend")
        (getColS (sumStepCtr (summaryBase t)) "clicks") = _
    rw [h1_keep _ hspS, h1_keep _ hckS,
      summaryBase_getCol t "spend" (mem_sumColsOf t "spend" (by decide) hsp),
      summaryBase_getCol t "clicks" (mem_sumColsOf t "clicks" (by decide) hck),
      zipWith_map_same]
  · intro hsp him
    have hspS : "spend" ∈ (summaryBase t).cols :=
      mem_sumColsOf t "spend" (by decide) hsp
    have himS : "impressions" ∈ (summaryBase t).cols :=
      mem_sumColsOf t "impressions" (by decide) him
    have hspS2 : "spend" ∈ (sumStepCpc (sumStepCtr (summaryBase t))).cols :=
      h2_mono _ (h1_mono _ hspS)
    have himS2 : "impressions" ∈ (sumStepCpc (sumStepCtr (summaryBase t))).cols :=
      h2_mono _ (h1_mono _ himS)
    have hcpm3 : getColS (sumStepCpm (sumStepCpc (sumStepCtr (summaryBase t)))) "cpm"
        = zipCols (sumStepCpc (sumStepCtr (summaryBase t))).toTable
            "spend" "impressions"
            (fun a b => vround2 (vscale 1000 (vdiv a b))) := h3_new ⟨hspS2, himS2⟩
    have hm3 : "cpm" ∈ (sumStepCpm (sumStepCpc (sumStepCtr (summaryBase t)))).cols := by
      have hfresh : "cpm" ∉ (sumStepCpc (sumStepCtr (summaryBase t))).cols :=
        fun h => by
          have := h2_sub _ h
          simp at this
      simp only [sumStepCpm, if_pos (And.intro hspS2 himS2)]
      rw [show (setColS (sumStepCpc (sumStepCtr (summaryBase t))) "cpm"
          (zipCols (sumStepCpc (sumStepCtr (summaryBase t))).toTable
            "spend" "impressions"
            (fun a b => vround2 (vscale 1000 (vdiv a b))))).cols
          = (sumStepCpc (sumStepCtr (summaryBase t))).cols ++ ["cpm"] from
        setCol_fresh_cols _ _ _ hfresh]
      simp
    rw [h5_keep _ (h4_mono _ hm3), h4_keep _ hm3, hcpm3]
    show List.zipWith _ (getColS (sumStepCpc (sumStepCtr (summaryBase t))) "spend")
        (getColS (sumStepCpc (sumStepCtr (summaryBase t))) "impressions") = _
    rw [h2_keep _ (h1_mono _ hspS), h2_keep _ (h1_mono _ himS),
      h1_keep _ hspS, h1_keep _ himS,
      summaryBase_getCol t "spend" (mem_sumColsOf t "spend" (by decide) hsp),
      summaryBase_getCol t "impressions"
        (mem_sumColsOf t "impressions" (by decide) him),
      zipWith_map_same]
  · intro hsp hcv
    have hspS : "spend" ∈ (summaryBase t).cols :=
      mem_sumColsOf t "spend" (by decide) hsp
    have hcvS : "conversions" ∈ (summaryBase t).cols :=
      mem_sumColsOf t "conversions" (by decide) hcv
    have hspS3 : "spend"
        ∈ (sumStepCpm (sumStepCpc (sumStepCtr (summaryBase t)))).cols :=
      h3_mono _ (h2_mono _ (h1_mono _ hspS))
    have hcvS3 : "conversions"
        ∈ (sumStepCpm (sumStepCpc (sumStepCtr (summaryBase t)))).cols :=
      h3_mono _ (h2_mono _ (h1_mono _ hcvS))
    have hcpa4 : getColS
          (sumStepCpa (sumStepCpm (sumStepCpc (sumStepCtr (summaryBase t))))) "cpa"
        = zipCols (sumStepCpm (sumStepCpc (sumStepCtr (summaryBase t)))).toTable
            "spend" "conversions"
            (fun a b => vround2 (vdiv a b)) := h4_new ⟨hspS3, hcvS3⟩
    have hm4 : "cpa"
        ∈ (sumStepCpa (sumStepCpm (sumStepCpc (sumStepCtr (summaryBase t))))).cols := by
      have hfresh : "cpa"
          ∉ (sumStepCpm (sumStepCpc (sumStepCtr (summaryBase t)))).cols :=
        fun h => by
          have := h3_sub _ h
          simp at this
      simp only [sumStepCpa, if_pos (And.intro hspS3 hcvS3)]
      rw [show (setColS (sumStepCpm (sumStepCpc (sumStepCtr (summaryBase t)))) "cpa"
          (zipCols (sumStepCpm (sumStepCpc (sumStepCtr (summaryBase t)))).toTable
            "spend" "conversions"
            (fun a b => vround2 (vdiv a b)))).cols
          = (sumStepCpm (sumStepCpc (sumStepCtr (summaryBase t)))).cols ++ ["cpa"]
        from setCol_fresh_cols _ _ _ hfresh]
      simp
    rw [h5_keep _ hm4, hcpa4]
    show List.zipWith _
        (getColS (sumStepCpm (sumStepCpc (sumStepCtr (summaryBase t)))) "spend")
        (getColS (sumStepCpm (sumStepCpc (sumStepCtr (summaryBase t)))) "conversions")
        = _
    rw [h3_keep _ (h2_mono _ (h1_mono _ hspS)),
      h3_keep _ (h2_mono _ (h1_mono _ hcvS)),
      h2_keep _ (h1_mono _ hspS), h2_keep _ (h1_mono _ hcvS),
      h1_keep _ hspS, h1_keep _ hcvS,
      summaryBase_getCol t "spend" (mem_sumColsOf t "spend" (by decide) hsp),
      summaryBase_getCol t "conversions"
        (mem_sumColsOf t "conversions" (by decide) hcv),
      zipWith_map_same]
  · intro hcv hck
    have hcvS : "conversions" ∈ (summaryBase t).cols :=
      mem_sumColsOf t "conversions" (by decide) hcv
    have hckS : "clicks" ∈ (summaryBase t).cols :=
      mem_sumColsOf t "clicks" (by decide) hck
    have hcvS4 : "conversions"
        ∈ (sumStepCpa (sumStepCpm (sumStepCpc (sumStepCtr (summaryBase t))))).cols :=
      h4_mono _ (h3_mono _ (h2_mono _ (h1_mono _ hcvS)))
    have hckS4 : "clicks"
        ∈ (sumStepCpa (sumStepCpm (sumStepCpc (sumStepCtr (summaryBase t))))).cols :=
      h4_mono _ (h3_mono _ (h2_mono _ (h1_mono _ hckS)))
    have hconv5 : getColS
          (sumStepConv (sumStepCpa (sumStepCpm (sumStepCpc (sumStepCtr (summaryBase t))))))
          "conversion_rate"
        = zipCols
            (sumStepCpa (sumStepCpm (sumStepCpc (sumStepCtr (summaryBase t))))).toTable
            "conversions" "clicks"
            (fun a b => vround2 (vscale 100 (vdiv a b))) := h5_new ⟨hcvS4, hckS4⟩
    rw [hconv5]
    show List.zipWith _
        (getColS (sumStepCpa (sumStepCpm (sumStepCpc (sumStepCtr (summaryBase t)))))
          "conversions")
        (getColS (sumStepCpa (sumStepCpm (sumStepCpc (sumStepCtr (summaryBase t)))))
          "clicks")
        = _
    rw [h4_keep _ (h3_mono _ (h2_mono _ (h1_mono _ hcvS))),
      h4_keep _ (h3_mono _ (h2_mono _ (h1_mono _ hckS))),
      h3_keep _ (h2_mono _ (h1_mono _ hcvS)),
      h3_keep _ (h2_mono _ (h1_mono _ hckS)),
      h2_keep _ (h1_mono _ hcvS), h2_keep _ (h1_mono _ hckS),
      h1_keep _ hcvS, h1_keep _ hckS,
      summaryBase_getCol t "conversions"
        (mem_sumColsOf t "conversions" (by decide) hcv),
      summaryBase_getCol t "clicks" (mem_sumColsOf t "clicks" (by decide) hck),
      zipWith_map_same]

/- ## `platStats` characterization -/

lemma getColE_ok (t : Table) (c : String) (v : List Val)
    (h : getColE t c = Except.ok v) : v = getCol t c ∧ c ∈ t.cols := by
  unfold getColE at h
  split_ifs at h with hc
  · injection h with h
    exact ⟨h.symm, hc⟩

lemma platStats_ok_spec (t : Table) (p : String) (st : PlatStats)
    (h : platStats t p = Except.ok st) :
    st.n_campaigns = (distinctVals (getCol (subTable t p) "campaign")).length ∧
    st.total_impressions = ratSum (getCol (subTable t p) "impressions") ∧
    st.total_clicks = ratSum (getCol (subTable t p) "clicks") ∧
    st.total_spend = ratSum (getCol (subTable t p) "spend") ∧
    st.total_conversions = ratSum (getCol (subTable t p) "conversions") ∧
    st.aggregate_ctr = (if 0 < st.total_impressions then
      st.total_clicks / st.total_impressions * 100 else 0) ∧
    st.aggregate_cpc = (if 0 < st.total_clicks then
      st.total_spend / st.total_clicks else 0) ∧
    st.aggregate_conversion_rate = (if 0 < st.total_clicks then
      st.total_conversions / st.total_clicks * 100 else 0) ∧
    st.aggregate_cpa = (if 0 < st.total_conversions then
      st.total_spend / st.total_conversions else 0) ∧
    st.ctrStats = (if 1 < st.n_campaigns then
      some (computeStats (getCol (subTable t p) "ctr")) else none) ∧
    st.cpcStats = (if 1 < st.n_campaigns then
      some (computeStats (getCol (subTable t p) "cpc")) else none) ∧
    st.convRateStats = (if 1 < st.n_campaigns ∧ "conversion_rate" ∈ t.cols then
      some (computeStats (getCol (subTable t p) "conversion_rate")) else none) ∧
    st.cpaStats = (if 1 < st.n_campaigns ∧ "cpa" ∈ t.cols then
      some (computeStats (getCol (subTable t p) "cpa")) else none) := by
  cases hcamp : getColE (subTable t p) "campaign" with
  | error e => simp [platStats, hcamp] at h
  | ok campaignCol =>
  cases himpr : getColE (subTable t p) "impressions" with
  | error e => simp [platStats, hcamp, himpr] at h
  | ok imprCol =>
  cases hclk : getColE (subTable t p) "clicks" with
  | error e => simp [platStats, hcamp, himpr, hclk] at h
  | ok clicksCol =>
  cases hsp : getColE (subTable t p) "spend" with
  | error e => simp [platStats, hcamp, himpr, hclk, hsp] at h
  | ok spendCol =>
  cases hcv : getColE (subTable t p) "conversions" with
  | error e => simp [platStats, hcamp, himpr, hclk, hsp, hcv] at h
  | ok convCol =>
  obtain ⟨rfl, -⟩ : campaignCol = getCol (subTable t p) "campaign" ∧ _ :=
    getColE_ok _ _ _ hcamp
  obtain ⟨rfl, -⟩ : imprCol = getCol (subTable t p) "impressions" ∧ _ :=
    getColE_ok _ _ _ himpr
  obtain ⟨rfl, -⟩ : clicksCol = getCol (subTable t p) "clicks" ∧ _ :=
    getColE_ok _ _ _ hclk
  obtain ⟨rfl, -⟩ : spendCol = getCol (subTable t p) "spend" ∧ _ :=
    getColE_ok _ _ _ hsp
  obtain ⟨rfl, -⟩ : convCol = getCol (subTable t p) "conversions" ∧ _ :=
    getColE_ok _ _ _ hcv
  simp only [platStats, hcamp, himpr, hclk, hsp, hcv] at h
  split at h
  case _ hctrSt => exact Except.noConfusion h
  case _ ctrSt hctrSt =>
  split at h
  case _ hcpcSt => exact Except.noConfusion h
  case _ cpcSt hcpcSt =>
  split at h
  case _ hhl => exact Except.noConfusion h
  case _ highlights hhl =>
  injection h with h
  subst h
  refine ⟨rfl, rfl, rfl, rfl, rfl, rfl, rfl, rfl, rfl, ?_, ?_, rfl, rfl⟩
  · split at hctrSt
    case _ hn =>
      cases hctr : getColE (subTable t p) "ctr" with
      | error e => rw [hctr] at hctrSt; simp [Except.map] at hctrSt
      | ok c =>
          obtain ⟨rfl, -⟩ : c = getCol (subTable t p) "ctr" ∧ _ :=
            getColE_ok _ _ _ hctr
          rw [hctr] at hctrSt
          simp only [Except.map] at hctrSt
          injection hctrSt with hctrSt
          simp [← hctrSt, hn]
    case _ hn =>
      injection hctrSt with hctrSt
      simp [← hctrSt, hn]
  · split at hcpcSt
    case _ hn =>
      cases hcpc : getColE (subTable t p) "cpc" with
      | error e => rw [hcpc] at hcpcSt; simp [Except.map] at hcpcSt
      | ok c =>
          obtain ⟨rfl, -⟩ : c = getCol (subTable t p) "cpc" ∧ _ :=
            getColE_ok _ _ _ hcpc
          rw [hcpc] at hcpcSt
          simp only [Except.map] at hcpcSt
          injection hcpcSt with hcpcSt
          simp [← hcpcSt, hn]
    case _ hn =>
      injection hcpcSt with hcpcSt
      simp [← hcpcSt, hn]

/-- Claim C3: `get_platform_summary` derives every aggregate KPI from the
group sums (volume-weighted), rounded to 2 decimals: whenever its two
volume columns are present, ctr maps each platform to
`round2(sum clicks / sum impressions * 100)`, cpc to
`round2(sum spend / sum clicks)`, cpm to
`round2(sum spend / sum impressions * 1000)`, cpa to
`round2(sum spend / sum conversions)` and conversion_rate to
`round2(sum conversions / sum clicks * 100)`; on the spec's two-row
example the aggregate ctr is 1.9, which differs from the per-row average
(10 + 1)/2 = 5.5. -/
theorem c3_platform_summary_volume_weighted :
    (∀ t, "platform" ∈ t.cols →
      ∃ s, get_platform_summary t = some s ∧
        s.index = sortedKeys (getCol t "platform") ∧
        ("clicks" ∈ t.cols → "impressions" ∈ t.cols →
          getColS s "ctr" = (sortedKeys (getCol t "platform")).map (fun p =>
            vround2 (vscale 100 (vdiv (Val.num (groupSum t p "clicks"))
              (Val.num (groupSum t p "impressions")))))) ∧
        ("spend" ∈ t.cols → "clicks" ∈ t.cols →
          getColS s "cpc" = (sortedKeys (getCol t "platform")).map (fun p =>
            vround2 (vdiv (Val.num (groupSum t p "spend"))
              (Val.num (groupSum t p "clicks"))))) ∧
        ("spend" ∈ t.cols → "impressions" ∈ t.cols →
          getColS s "cpm" = (sortedKeys (getCol t "platform")).map (fun p =>
            vround2 (vscale 1000 (vdiv (Val.num (groupSum t p "spend"))
              (Val.num (groupSum t p "impressions")))))) ∧
        ("spend" ∈ t.cols → "conversions" ∈ t.cols →
          getColS s "cpa" = (sortedKeys (getCol t "platform")).map (fun p =>
            vround2 (vdiv (Val.num (groupSum t p "spend"))
              (Val.num (groupSum t p "conversions"))))) ∧
        ("conversions" ∈ t.cols → "clicks" ∈ t.cols →
          getColS s "conversion_rate"
            = (sortedKeys (getCol t "platform")).map (fun p =>
            vround2 (vscale 100 (vdiv (Val.num (groupSum t p "conversions"))
              (Val.num (groupSum t p "clicks"))))))) ∧
    ((get_platform_summary weightedExample).map (fun s => getColS s "ctr")
        = some [Val.num (19/10)] ∧
      (19 : ℚ)/10 ≠ (10 + 1)/2) := by
  constructor
  · intro t hp
    exact get_platform_summary_spec t hp
  · exact ⟨by decide, by decide⟩

/-- Witness for `c3_platform_summary_volume_weighted` on the §8 table. -/
theorem c3_platform_summary_volume_weighted_witness :
    ∃ s, get_platform_summary weightedExample = some s ∧
      s.index = sortedKeys (getCol weightedExample "platform") ∧
      getColS s "ctr" = (sortedKeys (getCol weightedExample "platform")).map
        (fun p => vround2 (vscale 100
          (vdiv (Val.num (groupSum weightedExample p "clicks"))
            (Val.num (groupSum weightedExample p "impressions"))))) ∧
      getColS s "cpc" = (sortedKeys (getCol weightedExample "platform")).map
        (fun p => vround2
          (vdiv (Val.num (groupSum weightedExample p "spend"))
            (Val.num (groupSum weightedExample p "clicks")))) ∧
      getColS s "cpm" = (sortedKeys (getCol weightedExample "platform")).map
        (fun p => vround2 (vscale 1000
          (vdiv (Val.num (groupSum weightedExample p "spend"))
            (Val.num (groupSum weightedExample p "impressions"))))) ∧
      getColS s "cpa" = (sortedKeys (getCol weightedExample "platform")).map
        (fun p => vround2
          (vdiv (Val.num (groupSum weightedExample p "spend"))
            (Val.num (groupSum weightedExample p "conversions")))) ∧
      getColS s "conversion_rate"
        = (sortedKeys (getCol weightedExample "platform")).map
        (fun p => vround2 (vscale 100
          (vdiv (Val.num (groupSum weightedExample p "conversions"))
            (Val.num (groupSum weightedExample p "clicks"))))) := by
  obtain ⟨s, hs, hidx, hctr, hcpc, hcpm, hcpa, hconv⟩ :=
    c3_platform_summary_volume_weighted.1 weightedExample (by decide)
  exact ⟨s, hs, hidx, hctr (by decide) (by decide), hcpc (by decide) (by decide),
    hcpm (by decide) (by decide), hcpa (by decide) (by decide),
    hconv (by decide) (by decide)⟩

lemma unionCols_mem_aux (ts : List Table) (acc : List String) (c : String) :
    c ∈ ts.foldl (fun a t => a ++ t.cols.filter (fun x => x ∉ a)) acc ↔
      c ∈ acc ∨ ∃ t ∈ ts, c ∈ t.cols := by
  induction ts generalizing acc with
  | nil => simp
  | cons t ts ih =>
      simp only [List.foldl_cons, ih, List.mem_append, List.mem_filter,
        List.mem_cons]
      constructor
      · rintro (((h | ⟨h1, h2⟩)) | ⟨u, hu, hc⟩)
        · exact Or.inl h
        · exact Or.inr ⟨t, Or.inl rfl, h1⟩
        · exact Or.inr ⟨u, Or.inr hu, hc⟩
      · rintro (h | ⟨u, (rfl | hu), hc⟩)
        · exact Or.inl (Or.inl h)
        · by_cases ha : c ∈ acc
          · exact Or.inl (Or.inl ha)
          · exact Or.inl (Or.inr ⟨hc, by simpa using ha⟩)
        · exact Or.inr ⟨u, hu, hc⟩

lemma mem_unionCols (ts : List Table) (c : String) :
    c ∈ unionCols ts ↔ ∃ t ∈ ts, c ∈ t.cols := by
  unfold unionCols
  simpa using unionCols_mem_aux ts [] c

lemma concat_rows_get (cs : List String) (ts : List Table) :
    ∀ (i j : ℕ) (t : Table) (r : List Val), ts.get? i = some t →
      t.rows.get? j = some r →
      (ts.flatMap (fun u => u.rows.map (fun w => reindexRow u w cs))).get?
          (((ts.take i).map (fun u => u.rows.length)).sum + j)
        = some (reindexRow t r cs) := by
  induction ts with
  | nil => intro i j t r h; simp at h
  | cons u ts ih =>
      intro i j t r hi hj
      cases i with
      | zero =>
          simp only [List.get?_cons_zero, Option.some.injEq] at hi
          subst hi
          have hj' : j < u.rows.length := by
            by_contra hge
            rw [List.get?_eq_none.mpr (Nat.le_of_not_lt hge)] at hj
            exact Option.noConfusion hj
          simp only [List.take_zero, List.map_nil, List.sum_nil, Nat.zero_add,
            List.flatMap_cons]
          rw [List.get?_append (by simpa using hj')]
          have hj2 : u.rows[j]? = some r := by
            rw [← List.get?_eq_getElem?]
            exact hj
          simp [List.get?_map, hj2]
      | succ i =>
          simp only [List.get?_cons_succ] at hi
          simp only [List.take_succ_cons, List.map_cons, List.sum_cons,
            List.flatMap_cons]
          rw [Nat.add_assoc]
          rw [List.get?_append_right (by simp [Nat.le_add_right])]
          simpa [Nat.add_sub_cancel_left] using ih i j t r hi hj

lemma concat_rows_length (ts : List Table) (cs : List String) :
    (ts.flatMap (fun u => u.rows.map (fun w => reindexRow u w cs))).length
      = (ts.map (fun u => u.rows.length)).sum := by
  induction ts with
  | nil => simp
  | cons u ts ih => simp [ih]

/-- Claim C7: the consolidated table has exactly the sum of the inputs'
row counts; its column set is the union of the inputs' column sets; each
input's rows appear contiguously at their input-order offset with
internal order preserved, and a column absent from a row's source table
holds the null marker (never zero) in that row. -/
theorem c7_consolidation_shape (ts : List Table) (hne : ts ≠ []) :
    (concatTables ts).rows.length = (ts.map (fun t => t.rows.length)).sum ∧
    (∀ c, c ∈ (concatTables ts).cols ↔ ∃ t ∈ ts, c ∈ t.cols) ∧
    (∀ i j t r, ts.get? i = some t → t.rows.get? j = some r →
      (concatTables ts).rows.get?
          (((ts.take i).map (fun u => u.rows.length)).sum + j)
        = some (reindexRow t r (unionCols ts)) ∧
      (∀ c ∈ unionCols ts,
        rowVal (unionCols ts) (reindexRow t r (unionCols ts)) c
          = if c ∈ t.cols then rowVal t.cols r c else Val.null)) := by
  refine ⟨concat_rows_length ts (unionCols ts), fun c => mem_unionCols ts c, ?_⟩
  intro i j t r hi hj
  refine ⟨concat_rows_get (unionCols ts) ts i j t r hi hj, ?_⟩
  intro c hc
  exact rowVal_map_self (unionCols ts)
    (fun c' => if c' ∈ t.cols then rowVal t.cols r c' else Val.null) c hc

/-- Witness for `c7_consolidation_shape` on two one-column tables. -/
theorem c7_consolidation_shape_witness :
    (concatTables [tblA, tblB]).rows.length
      = ([tblA, tblB].map (fun t => t.rows.length)).sum ∧
    ("b" ∈ (concatTables [tblA, tblB]).cols ↔
      ∃ t ∈ [tblA, tblB], "b" ∈ t.cols) ∧
    ((concatTables [tblA, tblB]).rows.get?
        ((([tblA, tblB].take 1).map (fun u => u.rows.length)).sum + 1)
      = some (reindexRow tblB [Val.num 3] (unionCols [tblA, tblB])) ∧
      (∀ c ∈ unionCols [tblA, tblB],
        rowVal (unionCols [tblA, tblB])
            (reindexRow tblB [Val.num 3] (unionCols [tblA, tblB])) c
          = if c ∈ tblB.cols then rowVal tblB.cols [Val.num 3] c
            else Val.null)) :=
  ⟨(c7_consolidation_shape [tblA, tblB] (by simp)).1,
   (c7_consolidation_shape [tblA, tblB] (by simp)).2.1 "b",
   (c7_consolidation_shape [tblA, tblB] (by simp)).2.2 1 1 tblB [Val.num 3]
     (by decide) (by decide)⟩

/- ## NaN-skipping statistics lemmas -/

lemma sumCount_spec : ∀ (xs : List Val),
    (∀ v ∈ xs, isNum v = true ∨ v = Val.null) →
    sumCount xs
      = (Val.num (xs.filterMap toNum).sum, (xs.filterMap toNum).length) := by
  suffices h : ∀ (xs : List Val),
      (∀ v ∈ xs, isNum v = true ∨ v = Val.null) →
      ∀ (a : ℚ) (n : ℕ),
      xs.foldl (fun acc v => match v with
        | Val.num q => (vadd acc.1 (Val.num q), acc.2 + 1)
        | Val.inf => (vadd acc.1 Val.inf, acc.2 + 1)
        | Val.ninf => (vadd acc.1 Val.ninf, acc.2 + 1)
        | _ => acc) (Val.num a, n)
        = (Val.num (a + (xs.filterMap toNum).sum),
           n + (xs.filterMap toNum).length) by
    intro xs hfin
    simpa [sumCount] using h xs hfin 0 0
  intro xs
  induction xs with
  | nil => intro _ a n; simp
  | cons v xs ih =>
      intro hfin a n
      have ih' := ih (fun w hw => hfin w (List.mem_cons_of_mem _ hw))
      cases v with
      | num q =>
          simp only [List.filterMap_cons, toNum]
          refine (ih' (a + q) (n + 1)).trans ?_
          refine Prod.ext ?_ ?_
          · simp
            ring
          · simp
            omega
      | str s =>
          rcases hfin (Val.str s) (List.mem_cons_self _ _) with h | h <;>
            simp [isNum] at h
      | null => simpa [toNum] using ih' a n
      | inf =>
          rcases hfin Val.inf (List.mem_cons_self _ _) with h | h <;>
            simp [isNum] at h
      | ninf =>
          rcases hfin Val.ninf (List.mem_cons_self _ _) with h | h <;>
            simp [isNum] at h

lemma devSum_spec (m : ℚ) : ∀ (xs : List Val),
    (∀ v ∈ xs, isNum v = true ∨ v = Val.null) →
    xs.foldl (fun a v => match v with
      | Val.num q => vadd a (vsq (vsub (Val.num q) (Val.num m)))
      | Val.inf => vadd a (vsq (vsub Val.inf (Val.num m)))
      | Val.ninf => vadd a (vsq (vsub Val.ninf (Val.num m)))
      | _ => a) (Val.num 0)
      = Val.num (((xs.filterMap toNum).map (fun x => (x - m) ^ 2)).sum) := by
  suffices h : ∀ (xs : List Val),
      (∀ v ∈ xs, isNum v = true ∨ v = Val.null) →
      ∀ a : ℚ,
      xs.foldl (fun a v => match v with
        | Val.num q => vadd a (vsq (vsub (Val.num q) (Val.num m)))
        | Val.inf => vadd a (vsq (vsub Val.inf (Val.num m)))
        | Val.ninf => vadd a (vsq (vsub Val.ninf (Val.num m)))
        | _ => a) (Val.num a)
        = Val.num (a + ((xs.filterMap toNum).map (fun x => (x - m) ^ 2)).sum) by
    intro xs hfin
    simpa using h xs hfin 0
  intro xs
  induction xs with
  | nil => intro _ a; simp
  | cons v xs ih =>
      intro hfin a
      have ih' := ih (fun w hw => hfin w (List.mem_cons_of_mem _ hw))
      cases v with
      | num q =>
          simp only [List.filterMap_cons, toNum, List.map_cons, List.sum_cons]
          refine (ih' (a + (q - m) ^ 2)).trans ?_
          congr 1
          ring
      | str s =>
          rcases hfin (Val.str s) (List.mem_cons_self _ _) with h | h <;>
            simp [isNum] at h
      | null => simpa [toNum] using ih' a
      | inf =>
          rcases hfin Val.inf (List.mem_cons_self _ _) with h | h <;>
            simp [isNum] at h
      | ninf =>
          rcases hfin Val.ninf (List.mem_cons_self _ _) with h | h <;>
            simp [isNum] at h

lemma filter_ordNum_of_fin : ∀ (xs : List Val),
    (∀ v ∈ xs, isNum v = true ∨ v = Val.null) →
    xs.filter isOrdNum = (xs.filterMap toNum).map Val.num := by
  intro xs
  induction xs with
  | nil => intro _; rfl
  | cons v xs ih =>
      intro hfin
      have ih' := ih (fun w hw => hfin w (List.mem_cons_of_mem _ hw))
      cases v with
      | num q =>
          simp [List.filter_cons, List.filterMap_cons, toNum, isOrdNum, ih']
      | str s =>
          rcases hfin (Val.str s) (List.mem_cons_self _ _) with h | h <;>
            simp [isNum] at h
      | null =>
          simp [List.filter_cons, List.filterMap_cons, toNum, isOrdNum, ih']
      | inf =>
          rcases hfin Val.inf (List.mem_cons_self _ _) with h | h <;>
            simp [isNum] at h
      | ninf =>
          rcases hfin Val.ninf (List.mem_cons_self _ _) with h | h <;>
            simp [isNum] at h

/-- Claim C8: when a platform has more than one campaign,
`analyze_platform_statistics` computes the ctr and cpc distributional
blocks by `computeStats` over the platform's row-level KPI cells; and on
any column of finite numbers and NaN — the spec §8's data model for these
columns — the mean is the spec's mean over the non-NaN values only, the
(squared) standard deviation is the spec's sample variance with divisor
n − 1 over the non-NaN values only, and the median is unchanged when the
NaN cells are removed outright — undefined rows are excluded, never
treated as 0. -/
theorem c8_sample_stddev_nan_excluded :
    (∀ t p st, platStats t p = Except.ok st → 1 < st.n_campaigns →
      st.ctrStats = some (computeStats (getCol (subTable t p) "ctr")) ∧
      st.cpcStats = some (computeStats (getCol (subTable t p) "cpc"))) ∧
    (∀ xs : List Val, (∀ v ∈ xs, isNum v = true ∨ v = Val.null) →
      pdMean xs = (if xs.filterMap toNum = [] then Val.null
        else Val.num (specMean (xs.filterMap toNum))) ∧
      pdVarN1 xs = (if (xs.filterMap toNum).length ≤ 1 then Val.null
        else Val.num (specSampleVar (xs.filterMap toNum))) ∧
      pdMedian xs = pdMedian ((xs.filterMap toNum).map Val.num)) := by
  constructor
  · intro t p st h hn
    obtain ⟨-, -, -, -, -, -, -, -, -, hctr, hcpc, -⟩ :=
      platStats_ok_spec t p st h
    rw [hctr, hcpc, if_pos hn, if_pos hn]
    exact ⟨rfl, rfl⟩
  · intro xs hfin
    have hmean : pdMean xs = (if xs.filterMap toNum = [] then Val.null
        else Val.num (specMean (xs.filterMap toNum))) := by
      rw [pdMean, sumCount_spec xs hfin]
      rcases hns : xs.filterMap toNum with _ | ⟨q, qs⟩
      · simp [hns]
      · simp [specMean, List.length_eq_zero]
    refine ⟨hmean, ?_, ?_⟩
    · rw [pdVarN1, sumCount_spec xs hfin]
      by_cases hle : (xs.filterMap toNum).length ≤ 1
      · simp [hle]
      · simp only [hle, if_false]
        have hne : xs.filterMap toNum ≠ [] := by
          intro hc
          rw [hc] at hle
          exact hle (by simp)
        rw [hmean, if_neg hne, devSum_spec (specMean (xs.filterMap toNum)) xs hfin]
        simp [specSampleVar]
    · rw [pdMedian, pdMedian, filter_ordNum_of_fin xs hfin]
      have : ((xs.filterMap toNum).map Val.num).filter isOrdNum
          = (xs.filterMap toNum).map Val.num := by
        rw [List.filter_eq_self]
        intro v hv
        rcases List.mem_map.mp hv with ⟨q, -, rfl⟩
        rfl
      rw [this]

/-- Witness for `c8_sample_stddev_nan_excluded` on the §8-style 3-value
dataset {2, 4, 6} with one NaN cpc cell. -/
theorem c8_sample_stddev_nan_excluded_witness :
    (multiCampaignStats.ctrStats
        = some (computeStats (getCol (subTable multiCampaignTable "A") "ctr")) ∧
      multiCampaignStats.cpcStats
        = some (computeStats (getCol (subTable multiCampaignTable "A") "cpc"))) ∧
    (pdMean [Val.num (1/2), Val.null, Val.num (3/2)]
        = (if ([Val.num (1/2), Val.null, Val.num (3/2)].filterMap toNum) = []
          then Val.null
          else Val.num (specMean
            ([Val.num (1/2), Val.null, Val.num (3/2)].filterMap toNum)))) :=
  ⟨c8_sample_stddev_nan_excluded.1 multiCampaignTable "A" multiCampaignStats
      (by decide) (by decide),
   (c8_sample_stddev_nan_excluded.2
      [Val.num (1/2), Val.null, Val.num (3/2)] (by decide)).1⟩

/- ## Spend-share lemmas -/

lemma locVal_map_aux (f : Val → Val) (c : String) :
    ∀ (idx : List String) (cols : List String) (rows : List (List Val)),
      idx.Nodup → idx.length = rows.length →
      idx.map (fun p => f (locVal ⟨idx, cols, rows⟩ p c))
        = rows.map (fun r => f (rowVal cols r c)) := by
  intro idx
  induction idx with
  | nil =>
      intro cols rows _ hlen
      cases rows with
      | nil => simp
      | cons r rows => simp at hlen
  | cons p idx ih =>
      intro cols rows hnd hlen
      cases rows with
      | nil => simp at hlen
      | cons r rows =>
          simp only [List.map_cons]
          have hpn : p ∉ idx := (List.nodup_cons.mp hnd).1
          congr 1
          · simp [locVal, colIdx]
          · rw [List.map_congr_left (fun q hq => ?_),
              ih cols rows (List.nodup_cons.mp hnd).2 (by simpa using hlen)]
            have hqp : ¬p = q := fun h => hpn (h ▸ hq)
            simp only [locVal, colIdx, hqp, if_false]
            cases hix : colIdx idx q with
            | none => simp
            | some i => simp

lemma all_num_exists (xs : List Val)
    (h : ∀ v ∈ xs, ∃ q : ℚ, v = Val.num q) :
    ∃ qs : List ℚ, xs = qs.map Val.num := by
  induction xs with
  | nil => exact ⟨[], rfl⟩
  | cons v xs ih =>
      obtain ⟨q, rfl⟩ := h v (List.mem_cons_self v xs)
      obtain ⟨qs, rfl⟩ := ih (fun w hw => h w (List.mem_cons_of_mem _ hw))
      exact ⟨q :: qs, rfl⟩

lemma ratSum_map_num (qs : List ℚ) : ratSum (qs.map Val.num) = qs.sum := by
  unfold ratSum
  rw [List.filterMap_map, show (toNum ∘ Val.num) = (some : ℚ → Option ℚ) from rfl,
    List.filterMap_some]

lemma sum_map_div_mul (qs : List ℚ) (T : ℚ) :
    (qs.map (fun q => q / T * 100)).sum = qs.sum / T * 100 := by
  induction qs with
  | nil => simp
  | cons q qs ih =>
      simp only [List.map_cons, List.sum_cons, ih]
      ring

lemma share_filter_block (c : Prop) [Decidable c] (r : Except String String)
    (g : String → Insight)
    (hg : ∀ p, (match g p with
      | Insight.spendShare q v => some (q, v)
      | _ => none) = (none : Option (String × Val)))
    (i : List Insight)
    (h : (if c then r.map (fun p => [g p]) else Except.ok []) = Except.ok i) :
    i.filterMap (fun ins => match ins with
      | Insight.spendShare q v => some (q, v)
      | _ => none) = [] := by
  split_ifs at h
  · cases r with
    | error e => simp [Except.map] at h
    | ok p =>
        simp only [Except.map] at h
        injection h with h
        rw [← h]
        simp [List.filterMap_cons, hg p]
  · injection h with h
    rw [← h]
    simp

/-- Claim C9 as amended: for a non-empty platform summary with a numeric
spend column whose total spend is nonzero, every spend-share percentage
is a finite number and the shares sum to exactly 100; and whenever
`get_performance_insights` returns a result, its spend-share entries are
exactly these percentages, one per platform in index order. -/
theorem c9_spend_shares_sum_to_100 (s : Summary)
    (hnum : ∀ v ∈ getColS s "spend", isNum v = true)
    (hnd : s.index.Nodup)
    (hlen : s.index.length = s.rows.length)
    (hspend : "spend" ∈ s.cols)
    (hrows : s.rows ≠ [])
    (htot : ratSum (getColS s "spend") ≠ 0) :
    (∀ v ∈ spendSharePcts s, isNum v = true) ∧
    ratSum (spendSharePcts s) = 100 ∧
    (∀ l, get_performance_insights (some s) = Except.ok l →
      l.filterMap (fun ins => match ins with
        | Insight.spendShare q v => some (q, v)
        | _ => none) = List.zip s.index (spendSharePcts s)) := by
  have hex : ∀ v ∈ getColS s "spend", ∃ q : ℚ, v = Val.num q := by
    intro v hv
    have hb := hnum v hv
    cases v <;> simp [isNum] at hb
    exact ⟨_, rfl⟩
  obtain ⟨qs, hqs⟩ := all_num_exists _ hex
  have hT : ratSum (getColS s "spend") = qs.sum := by rw [hqs, ratSum_map_num]
  have hsum0 : qs.sum ≠ 0 := hT ▸ htot
  have hshares : spendSharePcts s
      = (getColS s "spend").map (fun v => vscale 100 (vdiv v
          (Val.num (ratSum (getColS s "spend"))))) := by
    have haux := locVal_map_aux
      (fun v => vscale 100 (vdiv v (Val.num (ratSum (getColS s "spend")))))
      "spend" s.index s.cols s.rows hnd hlen
    simpa [spendSharePcts, getColS, getCol, Summary.toTable, List.map_map]
      using haux
  have hshares2 : spendSharePcts s
      = qs.map (fun q => Val.num (q / qs.sum * 100)) := by
    rw [hshares, hT, hqs, List.map_map]
    refine List.map_congr_left (fun q _ => ?_)
    simp [Function.comp, vdiv, vscale, hsum0]
  refine ⟨?_, ?_, ?_⟩
  · rw [hshares2]
    intro v hv
    obtain ⟨q, -, rfl⟩ := List.mem_map.mp hv
    rfl
  · rw [hshares2]
    rw [show qs.map (fun q => Val.num (q / qs.sum * 100))
        = (qs.map (fun q => q / qs.sum * 100)).map Val.num from by
      simp [List.map_map]]
    rw [ratSum_map_num, sum_map_div_mul, div_self hsum0]
    norm_num
  · intro l hl
    simp only [get_performance_insights] at hl
    rw [if_neg (by simpa [List.length_eq_zero] using hrows)] at hl
    split at hl
    case _ => exact Except.noConfusion hl
    case _ i1 heq1 =>
    split at hl
    case _ => exact Except.noConfusion hl
    case _ i2 heq2 =>
    split at hl
    case _ => exact Except.noConfusion hl
    case _ i3 heq3 =>
    split at hl
    case _ => exact Except.noConfusion hl
    case _ i4 heq4 =>
    injection hl with hl
    rw [← hl]
    have h1 := share_filter_block _ _ _ (fun p => rfl) i1 heq1
    have h2 := share_filter_block _ _ _ (fun p => rfl) i2 heq2
    have h3 := share_filter_block _ _ _ (fun p => rfl) i3 heq3
    have h4 := share_filter_block _ _ _ (fun p => rfl) i4 heq4
    rw [if_pos hspend]
    simp only [List.filterMap_append, h1, h2, h3, h4, List.nil_append]
    rw [List.filterMap_map]
    show List.filterMap (fun pr : String × Val => some (pr.1, pr.2))
        (List.zip s.index (spendSharePcts s))
      = List.zip s.index (spendSharePcts s)
    rw [show (fun pr : String × Val => some (pr.1, pr.2))
        = (some : String × Val → Option (String × Val)) from rfl]
    exact List.filterMap_some _

/-- Witness for `c9_spend_shares_sum_to_100` on the 30/70 summary. -/
theorem c9_spend_shares_sum_to_100_witness :
    (∀ v ∈ spendSharePcts twoPlatformSummary, isNum v = true) ∧
    ratSum (spendSharePcts twoPlatformSummary) = 100 ∧
    (∀ l, get_performance_insights (some twoPlatformSummary) = Except.ok l →
      l.filterMap (fun ins => match ins with
        | Insight.spendShare q v => some (q, v)
        | _ => none)
        = List.zip twoPlatformSummary.index (spendSharePcts twoPlatformSummary)) :=
  c9_spend_shares_sum_to_100 twoPlatformSummary (by decide) (by decide)
    (by decide) (by decide) (by decide) (by decide)

/- ## Normalization idempotence: character and whitespace lemmas -/

lemma toNat_ofNat_valid (n : ℕ) (h : n.isValidChar) :
    (Char.ofNat n).toNat = n := by
  rw [Char.ofNat, dif_pos h]
  rfl

lemma asciiLower_idem (c : Char) :
    asciiLower (asciiLower c) = asciiLower c := by
  unfold asciiLower
  by_cases h : 65 ≤ c.toNat ∧ c.toNat ≤ 90
  · rw [if_pos h]
    have hv : (c.toNat + 32).isValidChar := Or.inl (by omega)
    have ht : (Char.ofNat (c.toNat + 32)).toNat = c.toNat + 32 :=
      toNat_ofNat_valid _ hv
    rw [if_neg (by rw [ht]; omega)]
  · rw [if_neg h, if_neg h]

lemma dropWhile_idem {α : Type} (p : α → Bool) (l : List α) :
    (l.dropWhile p).dropWhile p = l.dropWhile p := by
  induction l with
  | nil => simp
  | cons c u ih =>
      by_cases h : p c
      · simp [List.dropWhile_cons, h, ih]
      · simp [List.dropWhile_cons, h]

lemma trimLeadWs_idem (l : List Char) :
    trimLeadWs (trimLeadWs l) = trimLeadWs l := dropWhile_idem wsChar l

lemma trimTrailWs_idem (l : List Char) :
    trimTrailWs (trimTrailWs l) = trimTrailWs l := by
  unfold trimTrailWs
  rw [List.reverse_reverse, dropWhile_idem]

lemma trimLeadWs_fixed_shape (u : List Char) (h : trimLeadWs u = u) :
    u = [] ∨ ∃ c v, u = c :: v ∧ wsChar c = false := by
  cases u with
  | nil => exact Or.inl rfl
  | cons c v =>
      by_cases hc : wsChar c
      · exfalso
        rw [trimLeadWs, List.dropWhile_cons, if_pos hc] at h
        have hle : (v.dropWhile wsChar).length ≤ v.length :=
          (List.dropWhile_suffix wsChar).sublist.length_le
        rw [h] at hle
        simp at hle
      · exact Or.inr ⟨c, v, rfl, by simpa using hc⟩

lemma trimLead_of_trimTrail_fixed (u : List Char) (h : trimLeadWs u = u) :
    trimLeadWs (trimTrailWs u) = trimTrailWs u := by
  rcases trimLeadWs_fixed_shape u h with rfl | ⟨c, v, rfl, hc⟩
  · rfl
  · unfold trimTrailWs
    cases hdw : (c :: v).reverse.dropWhile wsChar with
    | nil => rfl
    | cons d w =>
        have hsuf : (d :: w) <:+ (c :: v).reverse :=
          hdw ▸ List.dropWhile_suffix wsChar
        obtain ⟨pre, hpre⟩ := hsuf
        have hlast : (d :: w).getLast? = some c := by
          have h2 : ((c :: v).reverse).getLast? = some c := by
            simp
          rw [← hpre, List.getLast?_append] at h2
          cases hgl : (d :: w).getLast? with
          | none =>
              rw [List.getLast?_eq_none_iff] at hgl
              exact List.noConfusion hgl
          | some z =>
              rw [hgl, Option.or_some] at h2
              exact h2
        have hhead : (d :: w).reverse.head? = some c := by
          rw [List.head?_reverse]
          exact hlast
        cases hrev : (d :: w).reverse with
        | nil => simp [hrev] at hhead
        | cons e rest =>
            rw [hrev] at hhead
            simp at hhead
            subst hhead
            simp [trimLeadWs, List.dropWhile_cons, hc]

lemma strip_core_idem (l : List Char) :
    trimTrailWs (trimLeadWs (trimTrailWs (trimLeadWs l)))
      = trimTrailWs (trimLeadWs l) := by
  have hm : trimLeadWs (trimLeadWs l) = trimLeadWs l := trimLeadWs_idem l
  have hu : trimLeadWs (trimTrailWs (trimLeadWs l)) = trimTrailWs (trimLeadWs l) :=
    trimLead_of_trimTrail_fixed (trimLeadWs l) hm
  rw [hu, trimTrailWs_idem]

lemma mem_trimLeadWs {c : Char} {u : List Char} (h : c ∈ trimLeadWs u) :
    c ∈ u :=
  (List.dropWhile_suffix wsChar).sublist.subset h

lemma mem_trimTrailWs {c : Char} {u : List Char} (h : c ∈ trimTrailWs u) :
    c ∈ u := by
  unfold trimTrailWs at h
  rw [List.mem_reverse] at h
  have := (List.dropWhile_suffix wsChar).sublist.subset h
  rwa [List.mem_reverse] at this

lemma cleanName_idem (s : String) : cleanName (cleanName s) = cleanName s := by
  unfold cleanName stripStr lowerStr
  have htl : ∀ l : List Char, (String.mk l).toList = l := fun l => rfl
  simp only [htl]
  have hfix : ∀ c ∈ trimTrailWs (trimLeadWs (List.map asciiLower s.data)),
      asciiLower c = c := by
    intro c hc
    have hc' : c ∈ List.map asciiLower s.data :=
      mem_trimLeadWs (mem_trimTrailWs hc)
    obtain ⟨c0, -, rfl⟩ := List.mem_map.mp hc'
    exact asciiLower_idem c0
  rw [show List.map asciiLower
        (trimTrailWs (trimLeadWs (List.map asciiLower s.data)))
      = trimTrailWs (trimLeadWs (List.map asciiLower s.data)) from by
    simpa using List.map_congr_left hfix]
  rw [strip_core_idem]

/- ## Normalization idempotence: the alias loop -/

lemma applyAlias_of_settled (a c : String) (l : List String)
    (h : AliasSettled a c l) : applyAlias a c l = l := by
  rcases h with hno | hmem
  · unfold applyAlias
    split_ifs with hc
    · rfl
    · rw [List.find?_eq_none.mpr (fun x hx => by simp [hno x hx])]
  · unfold applyAlias
    rw [if_pos hmem]

lemma applyAlias_settles (a c : String) (l : List String) :
    AliasSettled a c (applyAlias a c l) := by
  unfold applyAlias
  split_ifs with hc
  · exact Or.inr hc
  · cases hf : l.find? (fun x => strContains a x) with
    | none =>
        refine Or.inl (fun x hx => ?_)
        have := List.find?_eq_none.mp hf x hx
        simpa using this
    | some x =>
        refine Or.inr ?_
        have hxl : x ∈ l := List.mem_of_find?_eq_some hf
        exact List.mem_map.mpr ⟨x, hxl, by simp⟩

lemma mem_applyAlias {x : String} (a c : String) (l : List String)
    (h : x ∈ applyAlias a c l) : x ∈ l ∨ x = c := by
  unfold applyAlias at h
  split_ifs at h with hc
  · exact Or.inl h
  · cases hf : l.find? (fun y => strContains a y) with
    | none => rw [hf] at h; exact Or.inl h
    | some y =>
        rw [hf] at h
        obtain ⟨z, hz, hzx⟩ := List.mem_map.mp h
        by_cases hzy : z = y
        · simp [hzy] at hzx
          exact Or.inr hzx.symm
        · simp [hzy] at hzx
          exact Or.inl (hzx ▸ hz)

lemma settled_preserved (a c a' c' : String) (l : List String)
    (hp : AliasSettled a c l)
    (h1 : strContains a c' = false ∨ c' = c)
    (h2 : c' ≠ c → strContains a' c = false) :
    AliasSettled a c (applyAlias a' c' l) := by
  rcases hp with hno | hmem
  · by_cases hcr : c ∈ applyAlias a' c' l
    · exact Or.inr hcr
    · refine Or.inl (fun x hx => ?_)
      rcases mem_applyAlias a' c' l hx with hxl | rfl
      · exact hno x hxl
      · rcases h1 with h1 | rfl
        · exact h1
        · exact absurd hx hcr
  · by_cases hcc : c' = c
    · subst hcc
      rw [applyAlias, if_pos hmem]
      exact Or.inr hmem
    · refine Or.inr ?_
      unfold applyAlias
      split_ifs with hc'
      · exact hmem
      · cases hf : l.find? (fun y => strContains a' y) with
        | none => exact hmem
        | some y =>
            have hay : strContains a' y = true := by
              have := List.find?_some hf
              simpa using this
            have hyc : y ≠ c := fun h => by
              rw [h] at hay
              rw [h2 hcc] at hay
              exact Bool.noConfusion hay
            refine List.mem_map.mpr ⟨c, hmem, ?_⟩
            rw [if_neg (fun h => hyc h.symm)]

lemma count_map_subst (y c' c : String) (l : List String)
    (hyc : y ≠ c) (hcc : c' ≠ c) :
    List.count c (l.map (fun z => if z = y then c' else z))
      = List.count c l := by
  induction l with
  | nil => simp
  | cons z zs ih =>
      simp only [List.map_cons]
      by_cases hzy : z = y
      · subst hzy
        rw [if_pos rfl, List.count_cons_of_ne (fun h => hcc h.symm),
          List.count_cons_of_ne (fun h => hyc h.symm), ih]
      · rw [if_neg hzy]
        by_cases hzc : z = c
        · subst hzc
          rw [List.count_cons_self, List.count_cons_self, ih]
        · rw [List.count_cons_of_ne (fun h => hzc h.symm),
            List.count_cons_of_ne (fun h => hzc h.symm), ih]

lemma count_applyAlias (a' c' c : String) (l : List String)
    (hmem : c ∈ l) (h2 : c' ≠ c → strContains a' c = false) :
    List.count c (applyAlias a' c' l) = List.count c l ∧
      c ∈ applyAlias a' c' l := by
  by_cases hcc : c' = c
  · subst hcc
    rw [applyAlias, if_pos hmem]
    exact ⟨rfl, hmem⟩
  · unfold applyAlias
    split_ifs with hc'
    · exact ⟨rfl, hmem⟩
    · cases hf : l.find? (fun y => strContains a' y) with
      | none => exact ⟨rfl, hmem⟩
      | some y =>
          have hay : strContains a' y = true := by
            have := List.find?_some hf
            simpa using this
          have hyc : y ≠ c := fun h => by
            rw [h] at hay
            rw [h2 hcc] at hay
            exact Bool.noConfusion hay
          exact ⟨count_map_subst y c' c l hyc hcc,
            List.mem_map.mpr ⟨c, hmem, by rw [if_neg (fun h => hyc h.symm)]⟩⟩

lemma applyAliases_eq (m : List String) :
    applyAliases m = applyAlias "sales" "conversions"
      (applyAlias "conv" "conversions"
        (applyAlias "views" "impressions"
          (applyAlias "impress" "impressions"
            (applyAlias "amount" "spend"
              (applyAlias "cost" "spend" m))))) := rfl

lemma mem_applyAliases {x : String} (m : List String)
    (h : x ∈ applyAliases m) :
    x ∈ m ∨ x = "spend" ∨ x = "impressions" ∨ x = "conversions" := by
  rw [applyAliases_eq] at h
  rcases mem_applyAlias _ _ _ h with h | rfl
  · rcases mem_applyAlias _ _ _ h with h | rfl
    · rcases mem_applyAlias _ _ _ h with h | rfl
      · rcases mem_applyAlias _ _ _ h with h | rfl
        · rcases mem_applyAlias _ _ _ h with h | rfl
          · rcases mem_applyAlias _ _ _ h with h | rfl
            · exact Or.inl h
            · simp
          · simp
        · simp
      · simp
    · simp
  · simp

lemma applyAliases_settles_all (m : List String) :
    ∀ pr ∈ aliasPairs, AliasSettled pr.1 pr.2 (applyAliases m) := by
  intro pr hpr
  rw [applyAliases_eq]
  simp only [aliasPairs, List.mem_cons, List.not_mem_nil, or_false] at hpr
  rcases hpr with rfl | rfl | rfl | rfl | rfl | rfl
  · exact settled_preserved _ _ _ _ _
      (settled_preserved _ _ _ _ _
        (settled_preserved _ _ _ _ _
          (settled_preserved _ _ _ _ _
            (settled_preserved _ _ _ _ _
              (applyAlias_settles "cost" "spend" m)
              (by decide) (by decide))
            (by decide) (by decide))
          (by decide) (by decide))
        (by decide) (by decide))
      (by decide) (by decide)
  · exact settled_preserved _ _ _ _ _
      (settled_preserved _ _ _ _ _
        (settled_preserved _ _ _ _ _
          (settled_preserved _ _ _ _ _
            (applyAlias_settles "amount" "spend" _)
            (by decide) (by decide))
          (by decide) (by decide))
        (by decide) (by decide))
      (by decide) (by decide)
  · exact settled_preserved _ _ _ _ _
      (settled_preserved _ _ _ _ _
        (settled_preserved _ _ _ _ _
          (applyAlias_settles "impress" "impressions" _)
          (by decide) (by decide))
        (by decide) (by decide))
      (by decide) (by decide)
  · exact settled_preserved _ _ _ _ _
      (settled_preserved _ _ _ _ _
        (applyAlias_settles "views" "impressions" _)
        (by decide) (by decide))
      (by decide) (by decide)
  · exact settled_preserved _ _ _ _ _
      (applyAlias_settles "conv" "conversions" _)
      (by decide) (by decide)
  · exact applyAlias_settles "sales" "conversions" _

lemma applyAliases_of_all_settled (l : List String)
    (h : ∀ pr ∈ aliasPairs, AliasSettled pr.1 pr.2 l) :
    applyAliases l = l := by
  have p1 := h ("cost", "spend") (by decide)
  have p2 := h ("amount", "spend") (by decide)
  have p3 := h ("impress", "impressions") (by decide)
  have p4 := h ("views", "impressions") (by decide)
  have p5 := h ("conv", "conversions") (by decide)
  have p6 := h ("sales", "conversions") (by decide)
  rw [applyAliases_eq,
    applyAlias_of_settled _ _ _ p1,
    applyAlias_of_settled _ _ _ p2,
    applyAlias_of_settled _ _ _ p3,
    applyAlias_of_settled _ _ _ p4,
    applyAlias_of_settled _ _ _ p5,
    applyAlias_of_settled _ _ _ p6]

/-- Claim C6: column normalization is idempotent — normalizing an
already-normalized column list changes nothing — and the alias-rename
stage never overwrites (or duplicates, or removes) a canonical column
already present: the multiplicity of a present canonical name is exactly
preserved. -/
theorem c6_normalization_idempotent_never_overwrites :
    (∀ cols, normalizeCols (normalizeCols cols) = normalizeCols cols) ∧
    (∀ (m : List String) (c : String),
      c ∈ (["spend", "impressions", "conversions"] : List String) → c ∈ m →
      List.count c (applyAliases m) = List.count c m) := by
  constructor
  · intro cols
    unfold normalizeCols
    have hfix : ∀ x ∈ applyAliases (cols.map cleanName), cleanName x = x := by
      intro x hx
      rcases mem_applyAliases _ hx with hx | rfl | rfl | rfl
      · obtain ⟨y, -, rfl⟩ := List.mem_map.mp hx
        exact cleanName_idem y
      · decide
      · decide
      · decide
    rw [show List.map cleanName (applyAliases (cols.map cleanName))
        = applyAliases (cols.map cleanName) from by
      simpa using List.map_congr_left hfix]
    exact applyAliases_of_all_settled _ (applyAliases_settles_all _)
  · intro m c hc hm
    simp only [List.mem_cons, List.not_mem_nil, or_false] at hc
    rw [applyAliases_eq]
    rcases hc with rfl | rfl | rfl
    · obtain ⟨e1, h1⟩ := count_applyAlias "cost" "spend" "spend" m hm (by decide)
      obtain ⟨e2, h2⟩ := count_applyAlias "amount" "spend" "spend" _ h1 (by decide)
      obtain ⟨e3, h3⟩ :=
        count_applyAlias "impress" "impressions" "spend" _ h2 (by decide)
      obtain ⟨e4, h4⟩ :=
        count_applyAlias "views" "impressions" "spend" _ h3 (by decide)
      obtain ⟨e5, h5⟩ :=
        count_applyAlias "conv" "conversions" "spend" _ h4 (by decide)
      obtain ⟨e6, h6⟩ :=
        count_applyAlias "sales" "conversions" "spend" _ h5 (by decide)
      rw [e6, e5, e4, e3, e2, e1]
    · obtain ⟨e1, h1⟩ :=
        count_applyAlias "cost" "spend" "impressions" m hm (by decide)
      obtain ⟨e2, h2⟩ :=
        count_applyAlias "amount" "spend" "impressions" _ h1 (by decide)
      obtain ⟨e3, h3⟩ :=
        count_applyAlias "impress" "impressions" "impressions" _ h2 (by decide)
      obtain ⟨e4, h4⟩ :=
        count_applyAlias "views" "impressions" "impressions" _ h3 (by decide)
      obtain ⟨e5, h5⟩ :=
        count_applyAlias "conv" "conversions" "impressions" _ h4 (by decide)
      obtain ⟨e6, h6⟩ :=
        count_applyAlias "sales" "conversions" "impressions" _ h5 (by decide)
      rw [e6, e5, e4, e3, e2, e1]
    · obtain ⟨e1, h1⟩ :=
        count_applyAlias "cost" "spend" "conversions" m hm (by decide)
      obtain ⟨e2, h2⟩ :=
        count_applyAlias "amount" "spend" "conversions" _ h1 (by decide)
      obtain ⟨e3, h3⟩ :=
        count_applyAlias "impress" "impressions" "conversions" _ h2 (by decide)
      obtain ⟨e4, h4⟩ :=
        count_applyAlias "views" "impressions" "conversions" _ h3 (by decide)
      obtain ⟨e5, h5⟩ :=
        count_applyAlias "conv" "conversions" "conversions" _ h4 (by decide)
      obtain ⟨e6, h6⟩ :=
        count_applyAlias "sales" "conversions" "conversions" _ h5 (by decide)
      rw [e6, e5, e4, e3, e2, e1]

/-- Witness for `c6_normalization_idempotent_never_overwrites`. -/
theorem c6_normalization_idempotent_never_overwrites_witness :
    normalizeCols (normalizeCols ["Cost ", "Views", "ctr"])
      = normalizeCols ["Cost ", "Views", "ctr"] ∧
    List.count "spend" (applyAliases ["spend", "cost"])
      = List.count "spend" ["spend", "cost"] :=
  ⟨c6_normalization_idempotent_never_overwrites.1 ["Cost ", "Views", "ctr"],
   c6_normalization_idempotent_never_overwrites.2 ["spend", "cost"] "spend"
     (by decide) (by decide)⟩

end ReportConsolidator
